import Mathlib

/-!
Verification of the craftidad-landing server logic against its specification.

The definitions below are a shallow embedding of the JavaScript source:
* `server/routes/admin.js` — link CRUD and reorder handlers, URL / hex-color
  validators;
* the auth router (login rate limiter, `isRateLimited`, `recordLoginAttempt`,
  `resetLoginAttempts`, and the `POST /login` handler).

JavaScript machine state (the in-memory `loginAttempts` `Map`, the links JSON
document) is made explicit; fallible handlers return `Except`; the platform
primitives `bcrypt.compare` is abstracted as a function parameter and the
WHATWG `URL` constructor is modelled (see `parseURL`).
-/

namespace Craftidad

/-! ## Data model: links (from `data/links.json` and `admin.js`) -/

/-- One link record, as stored in the links document.  Fields mirror the
object literal built in `POST /api/admin/links`. -/
structure Link where
  id : String
  label : String
  url : String
  visualType : String
  imageUrl : String
  iconId : String
  iconUrl : String
  order : Int
  active : Bool
deriving Repr, DecidableEq, Inhabited

/-! ## Rate limiter state (from the auth router) -/

/-- Value stored in the `loginAttempts` map for one client address:
`{ count, firstAttempt }`. -/
structure AttemptEntry where
  count : Nat
  firstAttempt : Nat
deriving Repr, DecidableEq

/-- The `loginAttempts` `Map`, modelled as an association list keyed by the
client IP string.  JS `Map` keys are unique; states produced by the handlers
keep keys distinct. -/
abbrev RateState := List (String × AttemptEntry)

/-- `loginAttempts.get(ip)` — first entry with the given key. -/
def mapGet : RateState → String → Option AttemptEntry
  | [], _ => none
  | e :: s, ip => if e.1 = ip then some e.2 else mapGet s ip

/-- `loginAttempts.set(ip, v)` — replace the entry in place, or append. -/
def mapSet : RateState → String → AttemptEntry → RateState
  | [], ip, v => [(ip, v)]
  | e :: s, ip, v => if e.1 = ip then (ip, v) :: s else e :: mapSet s ip v

/-- `loginAttempts.delete(ip)`. -/
def mapDelete : RateState → String → RateState
  | [], _ => []
  | e :: s, ip => if e.1 = ip then s else e :: mapDelete s ip

/-- `MAX_ATTEMPTS = 5`. -/
def MAX_ATTEMPTS : Nat := 5

/-- `LOCKOUT_DURATION = 15 * 60 * 1000` milliseconds. -/
def LOCKOUT_DURATION : Nat := 15 * 60 * 1000

/-- `isRateLimited(ip)` from the auth router.  It both answers the question
and lazily deletes an expired entry, so it returns the updated map as well.
`Date.now()` is the explicit `now` argument (milliseconds); `now - firstAttempt`
as truncated `Nat` subtraction agrees with the JS comparison `< LOCKOUT_DURATION`
for every `now` (a negative JS difference and a truncated `0` are both below
the bound). -/
def isRateLimited (ip : String) (now : Nat) (s : RateState) : Bool × RateState :=
  match mapGet s ip with
  | none => (false, s)
  | some a =>
    if a.count ≥ MAX_ATTEMPTS then
      if now - a.firstAttempt < LOCKOUT_DURATION then (true, s)
      else (false, mapDelete s ip)
    else (false, s)

/-- `recordLoginAttempt(ip)`: create `{count: 1, firstAttempt: now}` or bump
`count`. -/
def recordLoginAttempt (ip : String) (now : Nat) (s : RateState) : RateState :=
  match mapGet s ip with
  | none => mapSet s ip ⟨1, now⟩
  | some a => mapSet s ip ⟨a.count + 1, a.firstAttempt⟩

/-- `resetLoginAttempts(ip)`. -/
def resetLoginAttempts (ip : String) (s : RateState) : RateState :=
  mapDelete s ip

/-- The stored credentials read by `readAuth()`; empty strings stand for
absent/falsy fields, matching the `!authData.username || !authData.passwordHash`
check. -/
structure AuthData where
  username : String
  passwordHash : String
deriving Repr, DecidableEq

/-- Outcome of `POST /api/login`, by response code. -/
inductive LoginResult where
  /-- 429 `RATE_LIMITED`. -/
  | rateLimited
  /-- 400 `INVALID_INPUT`. -/
  | invalidInput
  /-- 500 `AUTH_NOT_CONFIGURED`. -/
  | authNotConfigured
  /-- 401 `INVALID_CREDENTIALS`. -/
  | invalidCredentials
  /-- 200 success. -/
  | success
deriving Repr, DecidableEq

/-- The `POST /api/login` handler.  `bc` abstracts `bcrypt.compare`; request
fields `username`/`password` use `""` for a missing or falsy value exactly as
the `!username || !password` check treats them. -/
def login (bc : String → String → Bool) (auth : AuthData)
    (username password ip : String) (now : Nat) (s : RateState) :
    LoginResult × RateState :=
  let r := isRateLimited ip now s
  if r.1 then (.rateLimited, r.2)
  else if username = "" ∨ password = "" then
    (.invalidInput, recordLoginAttempt ip now r.2)
  else if auth.username = "" ∨ auth.passwordHash = "" then
    (.authNotConfigured, r.2)
  else if username ≠ auth.username then
    (.invalidCredentials, recordLoginAttempt ip now r.2)
  else if ¬ bc password auth.passwordHash then
    (.invalidCredentials, recordLoginAttempt ip now r.2)
  else
    (.success, resetLoginAttempts ip r.2)

/-! ## Validators (from `admin.js`) -/

/-- ASCII letter, as in the first character of a URL scheme. -/
def isAsciiAlpha (c : Char) : Bool :=
  ('A' ≤ c && c ≤ 'Z') || ('a' ≤ c && c ≤ 'z')

/-- Character allowed after the first one in a URL scheme. -/
def isSchemeChar (c : Char) : Bool :=
  isAsciiAlpha c || c.isDigit || c == '+' || c == '-' || c == '.'

/-- Split off the remainder of a scheme up to the first `:`; returns the
scheme characters and the text after the colon, or `none` when no colon is
reached through scheme characters. -/
def takeScheme : List Char → Option (List Char × List Char)
  | [] => none
  | c :: cs =>
    if c = ':' then some ([], cs)
    else if isSchemeChar c then (takeScheme cs).map (fun p => (c :: p.1, p.2))
    else none

/-- WHATWG special schemes that require a nonempty host. -/
def hostRequiringSchemes : List String := ["ftp", "http", "https", "ws", "wss"]

/-- Modelled from the spec: the platform's WHATWG `URL` constructor (used by
`isValidURL` via `new URL(url)`) is not part of this repository; the spec
says a string must "parse as an absolute URL".  The model extracts the
scheme — a leading ASCII letter followed by scheme characters up to `:`,
lowercased — and, for the special schemes that require a host, demands
nonempty text after the leading slashes; it returns the `protocol` string
(scheme plus `:`) exactly as the `URL` object exposes it. -/
def parseURL (s : String) : Option String :=
  match s.data with
  | [] => none
  | c :: cs =>
    if isAsciiAlpha c then
      match takeScheme cs with
      | some (rest, after) =>
        let scheme := String.mk ((c :: rest).map Char.toLower)
        if scheme ∈ hostRequiringSchemes then
          if (after.dropWhile (· = '/')).isEmpty then none
          else some (scheme ++ ":")
        else some (scheme ++ ":")
      | none => none
    else none

/-- `isValidURL(url)` from `admin.js`: `new URL(url)` must succeed and its
`protocol` must be `http:` or `https:`. -/
def isValidURL (url : String) : Bool :=
  match parseURL url with
  | none => false
  | some protocol => protocol == "http:" || protocol == "https:"

/-- One character class of the regex `[0-9A-Fa-f]`. -/
def isHexDigitChar (c : Char) : Bool :=
  ('0' ≤ c && c ≤ '9') || ('A' ≤ c && c ≤ 'F') || ('a' ≤ c && c ≤ 'f')

/-- `isValidHexColor(color)` from `admin.js`: the regex
`^#[0-9A-Fa-f]{6}$`. -/
def isValidHexColor (color : String) : Bool :=
  match color.data with
  | c :: rest => c == '#' && rest.length == 6 && rest.all isHexDigitChar
  | [] => false

/-- JS `String.prototype.trim()`: strip leading and trailing whitespace
(modelled with `Char.isWhitespace`). -/
def jsTrim (s : String) : String :=
  String.mk (((s.data.dropWhile Char.isWhitespace).reverse.dropWhile
    Char.isWhitespace).reverse)

/-! ## Create (`POST /api/admin/links`) -/

/-- Request body of `POST /api/admin/links`.  `""` stands for an absent or
falsy field, exactly as the handler's truthiness checks treat it. -/
structure CreatePayload where
  label : String
  url : String
  visualType : String
  imageUrl : String
  iconId : String
  iconUrl : String
deriving Repr, DecidableEq

/-- Error codes of the create handler. -/
inductive CreateErr where
  | invalidInput
  | invalidUrl
  | invalidVisualType
  | missingImageUrl
  | invalidImageUrl
  | missingIconData
  | invalidIconUrl
deriving Repr, DecidableEq

/-- `Math.max(...links.map(link => link.order))` guarded by
`links.length > 0 ? … : -1`. -/
def jsMaxOrder (links : List Link) : Int :=
  match links.map (·.order) with
  | [] => -1
  | o :: os => os.foldl max o

/-- `const linkVisualType = visualType || 'none'`. -/
def effVisualType (p : CreatePayload) : String :=
  if p.visualType = "" then "none" else p.visualType

/-- The `newLink` object literal of the create handler. -/
def newLinkOf (p : CreatePayload) (newId : String) (links : List Link) : Link :=
  { id := newId
    label := jsTrim p.label
    url := jsTrim p.url
    visualType := effVisualType p
    imageUrl := if effVisualType p = "image" then jsTrim p.imageUrl else ""
    iconId := if effVisualType p = "icon" then jsTrim p.iconId else ""
    iconUrl := if effVisualType p = "icon" then jsTrim p.iconUrl else ""
    order := jsMaxOrder links + 1
    active := true }

/-- The `POST /api/admin/links` handler.  `newId` stands for the value of
`generateUUID()`.  On success it returns the created link and the new links
document (`links.push(newLink)` then `writeLinks`). -/
def createOp (p : CreatePayload) (newId : String) (links : List Link) :
    Except CreateErr (Link × List Link) :=
  if p.label = "" ∨ p.url = "" then .error .invalidInput
  else if ¬ isValidURL p.url then .error .invalidUrl
  else if ¬ (effVisualType p = "none" ∨ effVisualType p = "image" ∨
      effVisualType p = "icon") then .error .invalidVisualType
  else if effVisualType p = "image" ∧ (p.imageUrl = "" ∨ jsTrim p.imageUrl = "") then
    .error .missingImageUrl
  else if effVisualType p = "image" ∧ ¬ isValidURL p.imageUrl then
    .error .invalidImageUrl
  else if effVisualType p = "icon" ∧ (p.iconId = "" ∨ p.iconUrl = "") then
    .error .missingIconData
  else if effVisualType p = "icon" ∧ ¬ isValidURL p.iconUrl then
    .error .invalidIconUrl
  else .ok (newLinkOf p newId links, links ++ [newLinkOf p newId links])

/-! ## Update (`PUT /api/admin/links/:id`) -/

/-- Request body of the update handler; `none` is an absent (`undefined`)
field and `some ""` a supplied falsy string, matching the handler's
`!== undefined` and truthiness checks. -/
structure UpdatePayload where
  label : Option String := none
  url : Option String := none
  visualType : Option String := none
  imageUrl : Option String := none
  iconId : Option String := none
  iconUrl : Option String := none
  active : Option Bool := none
deriving Repr, DecidableEq

/-- Error codes of the update and delete handlers. -/
inductive UpdateErr where
  | notFound
  | invalidUrl
  | invalidVisualType
  | missingImageUrl
  | invalidImageUrl
  | missingIconData
  | invalidIconUrl
deriving Repr, DecidableEq

/-- The field assignments of the update handler applied to the found link:
each block `if (x !== undefined) links[i].x = …` in order, including the
visual-type dependent clearing. -/
def applyUpdate (p : UpdatePayload) (l : Link) : Link :=
  let l := match p.label with
    | some s => { l with label := jsTrim s }
    | none => l
  let l := match p.url with
    | some s => { l with url := jsTrim s }
    | none => l
  let l := match p.visualType with
    | some vt =>
      let l := { l with visualType := vt }
      if vt = "none" then { l with imageUrl := "", iconId := "", iconUrl := "" }
      else if vt = "image" then
        { l with imageUrl := jsTrim (p.imageUrl.getD ""), iconId := "", iconUrl := "" }
      else if vt = "icon" then
        { l with imageUrl := "", iconId := jsTrim (p.iconId.getD ""),
                 iconUrl := jsTrim (p.iconUrl.getD "") }
      else l
    | none => l
  match p.active with
  | some b => { l with active := b }
  | none => l

/-- `links.findIndex(link => link.id === id)` followed by in-place mutation:
rewrite the first link with the given id. -/
def updateFirst (f : Link → Link) (id : String) : List Link → List Link
  | [] => []
  | l :: ls => if l.id = id then f l :: ls else l :: updateFirst f id ls

/-- The `PUT /api/admin/links/:id` handler: find the link, run the
validations in source order, then apply the supplied fields and write. -/
def updateOp (p : UpdatePayload) (id : String) (links : List Link) :
    Except UpdateErr (List Link) :=
  if ¬ links.any (fun l => l.id == id) then .error .notFound
  else if (match p.url with
           | some u => u != "" && ! isValidURL u
           | none => false) then .error .invalidUrl
  else
    match p.visualType with
    | none => .ok (updateFirst (applyUpdate p) id links)
    | some vt =>
      if ¬ (vt = "none" ∨ vt = "image" ∨ vt = "icon") then .error .invalidVisualType
      else if vt = "image" ∧ (p.imageUrl.getD "" = "" ∨ jsTrim (p.imageUrl.getD "") = "") then
        .error .missingImageUrl
      else if vt = "image" ∧ ¬ isValidURL (p.imageUrl.getD "") then
        .error .invalidImageUrl
      else if vt = "icon" ∧ (p.iconId.getD "" = "" ∨ p.iconUrl.getD "" = "") then
        .error .missingIconData
      else if vt = "icon" ∧ ¬ isValidURL (p.iconUrl.getD "") then
        .error .invalidIconUrl
      else .ok (updateFirst (applyUpdate p) id links)

/-! ## Delete (`DELETE /api/admin/links/:id`) -/

/-- `findIndex` plus `splice(linkIndex, 1)`: remove the first link with the
given id, returning it and the remaining document. -/
def removeFirst (id : String) : List Link → Option (Link × List Link)
  | [] => none
  | l :: ls =>
    if l.id = id then some (l, ls)
    else (removeFirst id ls).map (fun p => (p.1, l :: p.2))

/-- The `DELETE /api/admin/links/:id` handler. -/
def deleteOp (id : String) (links : List Link) :
    Except UpdateErr (Link × List Link) :=
  match removeFirst id links with
  | none => .error .notFound
  | some p => .ok p

/-! ## Reorder (`PUT /api/admin/links/reorder`) -/

/-- `linkIds.includes(id)`. -/
def includes (ids : List String) (id : String) : Bool :=
  ids.any (fun x => x = id)

/-- `linkMap.has(id)` for the map built from the links array. -/
def existsId (links : List Link) (id : String) : Bool :=
  links.any (fun l => l.id == id)

/-- The validation loop `for (const id of linkIds) if (!linkMap.has(id)) …`:
the first payload id with no matching link, if any. -/
def findMissing (linkIds : List String) (links : List Link) : Option String :=
  linkIds.find? (fun id => ! existsId links id)

/-- One step of `linkIds.forEach((id, index) => linkMap.get(id).order = index)`:
set the order of the link(s) with the given id. -/
def setOrderById (ls : List Link) (id : String) (o : Int) : List Link :=
  ls.map (fun l => if l.id = id then { l with order := o } else l)

/-- The `forEach` over the payload, threading the running index. -/
def applyNamedAux (i : Nat) : List String → List Link → List Link
  | [], links => links
  | id :: ids, links => applyNamedAux (i + 1) ids (setOrderById links id (i : Int))

/-- `linkIds.forEach((id, index) => { linkMap.get(id).order = index })`. -/
def applyNamedOrders (linkIds : List String) (links : List Link) : List Link :=
  applyNamedAux 0 linkIds links

/-- The remainder pass: `links.filter(l => !linkIds.includes(l.id))` walked in
array order, assigning `maxOrder + index` where `maxOrder = linkIds.length`;
`base` is the next order value to hand out. -/
def assignRemainder (linkIds : List String) (base : Nat) : List Link → List Link
  | [] => []
  | l :: ls =>
    if includes linkIds l.id then l :: assignRemainder linkIds base ls
    else { l with order := (base : Int) } :: assignRemainder linkIds (base + 1) ls

/-- The `PUT /api/admin/links/reorder` handler: validate every payload id,
then assign payload positions to the named links and trailing consecutive
values to the remaining links in array order.  The error carries the first
unknown id (400 `INVALID_LINK_ID`). -/
def reorderOp (linkIds : List String) (links : List Link) :
    Except String (List Link) :=
  match findMissing linkIds links with
  | some id => .error id
  | none => .ok (assignRemainder linkIds linkIds.length (applyNamedOrders linkIds links))

/-- The handler seen from the stored document: on success the new array is
written (`writeLinks`), on a validation error nothing is written.  The flag
records whether a write happened. -/
def reorderStore (linkIds : List String) (links : List Link) : List Link × Bool :=
  match reorderOp linkIds links with
  | .ok res => (res, true)
  | .error _ => (links, false)

/-! ## Reachable link documents

States of the links document produced by the admin handlers, starting from an
empty collection.  `generateUUID()` is modelled as an arbitrary id that is
fresh for the collection (ids are unique opaque tokens in the data model). -/

/-- Link documents reachable through the create / update / delete / reorder
handlers from the empty collection. -/
inductive Reachable : List Link → Prop where
  | init : Reachable []
  | create {s : List Link} {p : CreatePayload} {newId : String} {l : Link}
      {s' : List Link} (hs : Reachable s) (hfresh : newId ∉ s.map (·.id))
      (hop : createOp p newId s = .ok (l, s')) : Reachable s'
  | update {s : List Link} {p : UpdatePayload} {id : String} {s' : List Link}
      (hs : Reachable s) (hop : updateOp p id s = .ok s') : Reachable s'
  | delete {s : List Link} {id : String} {l : Link} {s' : List Link}
      (hs : Reachable s) (hop : deleteOp id s = .ok (l, s')) : Reachable s'
  | reorder {s : List Link} {linkIds : List String} {s' : List Link}
      (hs : Reachable s) (hop : reorderOp linkIds s = .ok s') : Reachable s'

/-! ## Lemmas about the rate limiter map -/

/-- The `loginAttempts` map has pairwise-distinct keys (true of a JS `Map`). -/
def WFState (s : RateState) : Prop := (s.map Prod.fst).Nodup

theorem mapGet_mapSet_self (s : RateState) (ip : String) (v : AttemptEntry) :
    mapGet (mapSet s ip v) ip = some v := by
  induction s with
  | nil => simp [mapSet, mapGet]
  | cons e s ih =>
    by_cases h : e.1 = ip
    · simp [mapSet, mapGet, h]
    · simp [mapSet, mapGet, h, ih]

theorem mapDelete_of_get_none (s : RateState) (ip : String)
    (h : mapGet s ip = none) : mapDelete s ip = s := by
  induction s with
  | nil => simp [mapDelete]
  | cons e s ih =>
    by_cases he : e.1 = ip
    · simp [mapGet, he] at h
    · simp [mapGet, he] at h
      simp [mapDelete, he, ih h]

theorem mapGet_eq_none_of_not_mem_keys (s : RateState) (ip : String)
    (h : ip ∉ s.map Prod.fst) : mapGet s ip = none := by
  induction s with
  | nil => simp [mapGet]
  | cons e s ih =>
    simp only [List.map_cons, List.mem_cons, not_or] at h
    have : ¬ e.1 = ip := fun hh => h.1 hh.symm
    simp [mapGet, this, ih h.2]

theorem keys_mapSet (s : RateState) (ip : String) (v : AttemptEntry) :
    (mapSet s ip v).map Prod.fst =
      if ip ∈ s.map Prod.fst then s.map Prod.fst else s.map Prod.fst ++ [ip] := by
  induction s with
  | nil => simp [mapSet]
  | cons e s ih =>
    by_cases he : e.1 = ip
    · simp [mapSet, he]
    · have hne : ¬ ip = e.1 := fun hh => he hh.symm
      by_cases hm : ip ∈ s.map Prod.fst
      · simp [mapSet, he, ih, hm, hne]
      · simp [mapSet, he, ih, hm, hne]

theorem keys_mapDelete_subset (s : RateState) (ip : String) :
    (mapDelete s ip).map Prod.fst ⊆ s.map Prod.fst := by
  induction s with
  | nil => simp [mapDelete]
  | cons e s ih =>
    by_cases he : e.1 = ip
    · simp only [mapDelete, he, if_pos, List.map_cons]
      exact List.subset_cons_self _ _
    · simp only [mapDelete, he, if_neg, List.map_cons]
      exact List.cons_subset_cons _ ih

theorem mapGet_mapDelete_self (s : RateState) (ip : String) (hwf : WFState s) :
    mapGet (mapDelete s ip) ip = none := by
  induction s with
  | nil => simp [mapDelete, mapGet]
  | cons e s ih =>
    have h1 := (List.nodup_cons.mp hwf).1
    have h2 := (List.nodup_cons.mp hwf).2
    by_cases he : e.1 = ip
    · simp only [mapDelete, he, if_pos]
      exact mapGet_eq_none_of_not_mem_keys s ip (he ▸ h1)
    · simp [mapDelete, he, mapGet, ih h2]

theorem WFState_mapSet (s : RateState) (ip : String) (v : AttemptEntry)
    (hwf : WFState s) : WFState (mapSet s ip v) := by
  rw [WFState, keys_mapSet]
  by_cases hm : ip ∈ s.map Prod.fst
  · simpa [hm] using hwf
  · rw [if_neg hm]
    refine List.Nodup.append hwf (by simp) ?_
    intro a ha hb
    simp only [List.mem_singleton] at hb
    exact hm (hb ▸ ha)

theorem WFState_mapDelete (s : RateState) (ip : String) (hwf : WFState s) :
    WFState (mapDelete s ip) := by
  induction s with
  | nil => simpa [mapDelete] using hwf
  | cons e s ih =>
    have h1 := (List.nodup_cons.mp hwf).1
    have h2 := (List.nodup_cons.mp hwf).2
    by_cases he : e.1 = ip
    · simpa [mapDelete, he] using h2
    · have hd : mapDelete (e :: s) ip = e :: mapDelete s ip := by
        simp [mapDelete, he]
      rw [WFState, hd, List.map_cons, List.nodup_cons]
      exact ⟨fun hm => h1 (keys_mapDelete_subset s ip hm), ih h2⟩

theorem mapGet_recordLoginAttempt (ip : String) (now : Nat) (s : RateState) :
    mapGet (recordLoginAttempt ip now s) ip =
      some (match mapGet s ip with
            | none => ⟨1, now⟩
            | some a => ⟨a.count + 1, a.firstAttempt⟩) := by
  unfold recordLoginAttempt
  cases h : mapGet s ip <;> simp [mapGet_mapSet_self]

theorem WFState_recordLoginAttempt (ip : String) (now : Nat) (s : RateState)
    (hwf : WFState s) : WFState (recordLoginAttempt ip now s) := by
  unfold recordLoginAttempt
  cases mapGet s ip <;> exact WFState_mapSet _ _ _ hwf

theorem WFState_isRateLimited (ip : String) (now : Nat) (s : RateState)
    (hwf : WFState s) : WFState (isRateLimited ip now s).2 := by
  unfold isRateLimited
  cases mapGet s ip with
  | none => exact hwf
  | some a =>
    dsimp only
    split
    · split
      · exact hwf
      · exact WFState_mapDelete _ _ hwf
    · exact hwf

theorem WFState_login (bc : String → String → Bool) (auth : AuthData)
    (u p ip : String) (now : Nat) (s : RateState) (hwf : WFState s) :
    WFState (login bc auth u p ip now s).2 := by
  have hr := WFState_isRateLimited ip now s hwf
  unfold login
  dsimp only
  split
  · exact hr
  · split
    · exact WFState_recordLoginAttempt _ _ _ hr
    · split
      · exact hr
      · split
        · exact WFState_recordLoginAttempt _ _ _ hr
        · split
          · exact WFState_recordLoginAttempt _ _ _ hr
          · exact WFState_mapDelete _ _ hr

/-! ## Step lemmas for the login handler -/

theorem isRateLimited_of_count_lt (ip : String) (now : Nat) (s : RateState)
    (a : AttemptEntry) (hget : mapGet s ip = some a) (hlt : a.count < MAX_ATTEMPTS) :
    isRateLimited ip now s = (false, s) := by
  unfold isRateLimited
  rw [hget]
  simp [Nat.not_le.mpr hlt]

theorem isRateLimited_none (ip : String) (now : Nat) (s : RateState)
    (hget : mapGet s ip = none) : isRateLimited ip now s = (false, s) := by
  unfold isRateLimited
  rw [hget]

theorem login_fail_records (bc : String → String → Bool) (auth : AuthData)
    (u p ip : String) (t : Nat) (s : RateState) (r : LoginResult) (s' : RateState)
    (hrun : login bc auth u p ip t s = (r, s'))
    (hfail : r = .invalidInput ∨ r = .invalidCredentials)
    (hnl : isRateLimited ip t s = (false, s)) :
    s' = recordLoginAttempt ip t s := by
  unfold login at hrun
  rw [hnl] at hrun
  simp only at hrun
  by_cases h1 : u = "" ∨ p = ""
  · rw [if_pos h1] at hrun
    exact (Prod.mk.injEq _ _ _ _ ▸ hrun).2.symm
  · rw [if_neg h1] at hrun
    by_cases h2 : auth.username = "" ∨ auth.passwordHash = ""
    · rw [if_pos h2] at hrun
      have hr := (Prod.mk.injEq _ _ _ _ ▸ hrun).1
      rcases hfail with hf | hf <;> rw [hf] at hr <;> cases hr
    · rw [if_neg h2] at hrun
      by_cases h3 : u ≠ auth.username
      · rw [if_pos h3] at hrun
        exact (Prod.mk.injEq _ _ _ _ ▸ hrun).2.symm
      · rw [if_neg h3] at hrun
        by_cases h4 : ¬ bc p auth.passwordHash
        · rw [if_pos h4] at hrun
          exact (Prod.mk.injEq _ _ _ _ ▸ hrun).2.symm
        · rw [if_neg h4] at hrun
          have := (Prod.mk.injEq _ _ _ _ ▸ hrun).1
          rcases hfail with hf | hf <;> rw [hf] at this <;> cases this

theorem login_fail_fresh (bc : String → String → Bool) (auth : AuthData)
    (u p ip : String) (t : Nat) (s : RateState) (r : LoginResult) (s' : RateState)
    (hrun : login bc auth u p ip t s = (r, s'))
    (hfail : r = .invalidInput ∨ r = .invalidCredentials)
    (hget : mapGet s ip = none) :
    mapGet s' ip = some ⟨1, t⟩ := by
  have hs' := login_fail_records bc auth u p ip t s r s' hrun hfail
    (isRateLimited_none ip t s hget)
  rw [hs', mapGet_recordLoginAttempt, hget]

theorem login_fail_step (bc : String → String → Bool) (auth : AuthData)
    (u p ip : String) (t : Nat) (s : RateState) (r : LoginResult) (s' : RateState)
    (c f : Nat) (hrun : login bc auth u p ip t s = (r, s'))
    (hfail : r = .invalidInput ∨ r = .invalidCredentials)
    (hget : mapGet s ip = some ⟨c, f⟩) (hlt : c < MAX_ATTEMPTS) :
    mapGet s' ip = some ⟨c + 1, f⟩ := by
  have hs' := login_fail_records bc auth u p ip t s r s' hrun hfail
    (isRateLimited_of_count_lt ip t s ⟨c, f⟩ hget hlt)
  rw [hs', mapGet_recordLoginAttempt, hget]

/-! ## C6: locked addresses are rejected without touching credentials or state -/

/-- C6: for every login POST from an address in the Locked state — counter at
least `MAX_ATTEMPTS` and strictly less than `LOCKOUT_DURATION` elapsed since
the first recorded attempt — the request answers 429 `RATE_LIMITED` for every
credential-checking function and every supplied credentials, and the rate
limiter state (counter and first-attempt timestamp) is returned unchanged. -/
theorem locked_login_rejected_state_unchanged
    (bc : String → String → Bool) (auth : AuthData) (u p ip : String)
    (now : Nat) (s : RateState) (c f : Nat)
    (hget : mapGet s ip = some ⟨c, f⟩) (hc : MAX_ATTEMPTS ≤ c)
    (ht : now - f < LOCKOUT_DURATION) :
    login bc auth u p ip now s = (.rateLimited, s) := by
  have hlim : isRateLimited ip now s = (true, s) := by
    unfold isRateLimited
    rw [hget]
    simp [hc, ht]
  unfold login
  rw [hlim]
  simp

/-- Witness for C6 at a concrete locked state (5 attempts recorded at time 0,
a 6th attempt 1 second later). -/
theorem locked_login_rejected_state_unchanged_witness :
    login (fun _ _ => true) ⟨"admin", "h"⟩ "admin" "pw" "1.2.3.4" 1000
      [("1.2.3.4", ⟨5, 0⟩)] = (.rateLimited, [("1.2.3.4", ⟨5, 0⟩)]) :=
  locked_login_rejected_state_unchanged (fun _ _ => true) ⟨"admin", "h"⟩
    "admin" "pw" "1.2.3.4" 1000 [("1.2.3.4", ⟨5, 0⟩)] 5 0 (by decide)
    (by decide) (by decide)

/-! ## C4: counter bookkeeping for non-locked addresses -/

/-- C4 counterexample: a login POST from a non-locked address (counter 2)
whose request carries a username and password, against an unconfigured auth
record, answers 500 `AUTH_NOT_CONFIGURED` and leaves the counter at 2 — it is
not incremented to 3 as the claim requires of every non-locked login POST. -/
theorem nonlocked_login_not_always_incremented :
    (isRateLimited "1.2.3.4" 1000 [("1.2.3.4", ⟨2, 0⟩)]).1 = false ∧
    login (fun _ _ => true) ⟨"", ""⟩ "user" "pw" "1.2.3.4" 1000
        [("1.2.3.4", ⟨2, 0⟩)] = (.authNotConfigured, [("1.2.3.4", ⟨2, 0⟩)]) ∧
    ¬ (mapGet (login (fun _ _ => true) ⟨"", ""⟩ "user" "pw" "1.2.3.4" 1000
        [("1.2.3.4", ⟨2, 0⟩)]).2 "1.2.3.4").map AttemptEntry.count = some 3 := by
  decide

/-- C4 amended: for every login POST from an address that is not rate limited,
provided the stored credentials are configured, the outcome is never 429 nor
500; every failing outcome increments the counter by one (recording `now` as
the first-attempt timestamp when no entry exists, both relative to the state
left by the lazy expiry check), and a successful outcome clears the entry. -/
theorem login_nonlocked_counter (bc : String → String → Bool) (auth : AuthData)
    (u p ip : String) (now : Nat) (s : RateState)
    (hnl : (isRateLimited ip now s).1 = false)
    (hcu : auth.username ≠ "") (hcp : auth.passwordHash ≠ "") :
    (login bc auth u p ip now s).1 ≠ .rateLimited ∧
    (login bc auth u p ip now s).1 ≠ .authNotConfigured ∧
    ((login bc auth u p ip now s).1 ≠ .success →
      (∀ c f, mapGet (isRateLimited ip now s).2 ip = some ⟨c, f⟩ →
        mapGet (login bc auth u p ip now s).2 ip = some ⟨c + 1, f⟩) ∧
      (mapGet (isRateLimited ip now s).2 ip = none →
        mapGet (login bc auth u p ip now s).2 ip = some ⟨1, now⟩)) ∧
    ((login bc auth u p ip now s).1 = .success → WFState s →
      mapGet (login bc auth u p ip now s).2 ip = none) := by
  have hr : isRateLimited ip now s = (false, (isRateLimited ip now s).2) := by
    rw [← hnl]
  have hrecord : ∀ res : LoginResult,
      login bc auth u p ip now s =
        (res, recordLoginAttempt ip now (isRateLimited ip now s).2) →
      res ≠ .rateLimited → res ≠ .authNotConfigured → res ≠ .success →
      (login bc auth u p ip now s).1 ≠ .rateLimited ∧
      (login bc auth u p ip now s).1 ≠ .authNotConfigured ∧
      ((login bc auth u p ip now s).1 ≠ .success →
        (∀ c f, mapGet (isRateLimited ip now s).2 ip = some ⟨c, f⟩ →
          mapGet (login bc auth u p ip now s).2 ip = some ⟨c + 1, f⟩) ∧
        (mapGet (isRateLimited ip now s).2 ip = none →
          mapGet (login bc auth u p ip now s).2 ip = some ⟨1, now⟩)) ∧
      ((login bc auth u p ip now s).1 = .success → WFState s →
        mapGet (login bc auth u p ip now s).2 ip = none) := by
    intro res hL hra hrb hrc
    rw [hL]
    refine ⟨hra, hrb, fun _ => ?_, fun hs _ => absurd hs hrc⟩
    constructor
    · intro c f hc
      simp only [mapGet_recordLoginAttempt, hc]
    · intro hc
      simp only [mapGet_recordLoginAttempt, hc]
  by_cases h1 : u = "" ∨ p = ""
  · exact hrecord .invalidInput (by unfold login; rw [hr]; simp [h1])
      (by intro h; cases h) (by intro h; cases h) (by intro h; cases h)
  · have h2 : ¬ (auth.username = "" ∨ auth.passwordHash = "") := by
      rintro (h | h) <;> [exact hcu h; exact hcp h]
    by_cases h3 : u ≠ auth.username
    · exact hrecord .invalidCredentials
        (by unfold login; rw [hr]; simp [h1, h2, h3])
        (by intro h; cases h) (by intro h; cases h) (by intro h; cases h)
    · by_cases h4 : bc p auth.passwordHash = true
      · have hL : login bc auth u p ip now s =
            (.success, resetLoginAttempts ip (isRateLimited ip now s).2) := by
          unfold login
          rw [hr]
          simp [h1, h2, h3, h4]
        rw [hL]
        refine ⟨(by intro h; cases h), (by intro h; cases h),
          fun hs => absurd rfl hs, fun _ hwf => ?_⟩
        exact mapGet_mapDelete_self _ _ (WFState_isRateLimited ip now s hwf)
      · exact hrecord .invalidCredentials
          (by unfold login; rw [hr]; simp [h1, h2, h3, h4])
          (by intro h; cases h) (by intro h; cases h) (by intro h; cases h)

/-- Witness for the amended C4: a failed attempt from a non-locked address
with counter 2 bumps it to 3. -/
theorem login_nonlocked_counter_witness :
    mapGet (login (fun p _ => p == "pw") ⟨"admin", "hash"⟩ "admin" "bad"
      "1.2.3.4" 50 [("1.2.3.4", ⟨2, 0⟩)]).2 "1.2.3.4" = some ⟨3, 0⟩ := by
  have H := login_nonlocked_counter (fun p _ => p == "pw") ⟨"admin", "hash"⟩
    "admin" "bad" "1.2.3.4" 50 [("1.2.3.4", ⟨2, 0⟩)] (by decide) (by decide)
    (by decide)
  exact (H.2.2.1 (by decide)).1 2 0 (by decide)

/-! ## C2: five failures lock the address for 15 minutes -/

/-- C2: after any sequence of five failed login attempts from one address
(starting with no recorded entry, spanning less than the lockout window), a
sixth attempt from that address within `LOCKOUT_DURATION` of the first is
answered 429 `RATE_LIMITED` with the state unchanged — regardless of the
credentials supplied — while a sixth attempt strictly more than
`LOCKOUT_DURATION` after the first succeeds when the credentials are correct,
clearing the entry. -/
theorem five_failures_lockout
    (bc : String → String → Bool) (auth : AuthData) (ip : String)
    (u₁ p₁ u₂ p₂ u₃ p₃ u₄ p₄ u₅ p₅ : String) (t₁ t₂ t₃ t₄ t₅ : Nat)
    (s₀ s₁ s₂ s₃ s₄ s₅ : RateState) (r₁ r₂ r₃ r₄ r₅ : LoginResult)
    (hwf : WFState s₀) (h₀ : mapGet s₀ ip = none)
    (e₁ : login bc auth u₁ p₁ ip t₁ s₀ = (r₁, s₁))
    (f₁ : r₁ = .invalidInput ∨ r₁ = .invalidCredentials)
    (e₂ : login bc auth u₂ p₂ ip t₂ s₁ = (r₂, s₂))
    (f₂ : r₂ = .invalidInput ∨ r₂ = .invalidCredentials)
    (e₃ : login bc auth u₃ p₃ ip t₃ s₂ = (r₃, s₃))
    (f₃ : r₃ = .invalidInput ∨ r₃ = .invalidCredentials)
    (e₄ : login bc auth u₄ p₄ ip t₄ s₃ = (r₄, s₄))
    (f₄ : r₄ = .invalidInput ∨ r₄ = .invalidCredentials)
    (e₅ : login bc auth u₅ p₅ ip t₅ s₄ = (r₅, s₅))
    (f₅ : r₅ = .invalidInput ∨ r₅ = .invalidCredentials)
    (_hmono : t₁ ≤ t₂ ∧ t₂ ≤ t₃ ∧ t₃ ≤ t₄ ∧ t₄ ≤ t₅)
    (_hspan : t₅ - t₁ < LOCKOUT_DURATION) :
    ∀ u₆ p₆ : String, ∀ t₆ : Nat,
      (t₆ - t₁ < LOCKOUT_DURATION →
        login bc auth u₆ p₆ ip t₆ s₅ = (.rateLimited, s₅)) ∧
      (LOCKOUT_DURATION < t₆ - t₁ →
        auth.username ≠ "" → auth.passwordHash ≠ "" →
        u₆ = auth.username → p₆ ≠ "" → bc p₆ auth.passwordHash = true →
        login bc auth u₆ p₆ ip t₆ s₅ = (.success, mapDelete s₅ ip)) := by
  have g₁ : mapGet s₁ ip = some ⟨1, t₁⟩ :=
    login_fail_fresh bc auth u₁ p₁ ip t₁ s₀ r₁ s₁ e₁ f₁ h₀
  have g₂ : mapGet s₂ ip = some ⟨2, t₁⟩ :=
    login_fail_step bc auth u₂ p₂ ip t₂ s₁ r₂ s₂ 1 t₁ e₂ f₂ g₁ (by decide)
  have g₃ : mapGet s₃ ip = some ⟨3, t₁⟩ :=
    login_fail_step bc auth u₃ p₃ ip t₃ s₂ r₃ s₃ 2 t₁ e₃ f₃ g₂ (by decide)
  have g₄ : mapGet s₄ ip = some ⟨4, t₁⟩ :=
    login_fail_step bc auth u₄ p₄ ip t₄ s₃ r₄ s₄ 3 t₁ e₄ f₄ g₃ (by decide)
  have g₅ : mapGet s₅ ip = some ⟨5, t₁⟩ :=
    login_fail_step bc auth u₅ p₅ ip t₅ s₄ r₅ s₅ 4 t₁ e₅ f₅ g₄ (by decide)
  have w₁ : WFState s₁ := by
    have := WFState_login bc auth u₁ p₁ ip t₁ s₀ hwf
    rwa [e₁] at this
  have w₂ : WFState s₂ := by
    have := WFState_login bc auth u₂ p₂ ip t₂ s₁ w₁
    rwa [e₂] at this
  have w₃ : WFState s₃ := by
    have := WFState_login bc auth u₃ p₃ ip t₃ s₂ w₂
    rwa [e₃] at this
  have w₄ : WFState s₄ := by
    have := WFState_login bc auth u₄ p₄ ip t₄ s₃ w₃
    rwa [e₄] at this
  have w₅ : WFState s₅ := by
    have := WFState_login bc auth u₅ p₅ ip t₅ s₄ w₄
    rwa [e₅] at this
  intro u₆ p₆ t₆
  constructor
  · intro hlt
    exact locked_login_rejected_state_unchanged bc auth u₆ p₆ ip t₆ s₅ 5 t₁ g₅
      (by decide) hlt
  · intro hgt hcu hcp hu hp hbc
    have hlim : isRateLimited ip t₆ s₅ = (false, mapDelete s₅ ip) := by
      unfold isRateLimited
      rw [g₅]
      simp only
      rw [if_pos (by decide : MAX_ATTEMPTS ≤ (5 : Nat))]
      rw [if_neg (by omega : ¬ (t₆ - t₁ < LOCKOUT_DURATION))]
    have h1 : ¬ (u₆ = "" ∨ p₆ = "") := by
      rintro (h | h)
      · exact hcu (hu ▸ h)
      · exact hp h
    have h2 : ¬ (auth.username = "" ∨ auth.passwordHash = "") := by
      rintro (h | h) <;> [exact hcu h; exact hcp h]
    have h3 : ¬ u₆ ≠ auth.username := fun h => h hu
    have h4 : ¬ ¬ bc p₆ auth.passwordHash := fun h => h hbc
    unfold login
    rw [hlim]
    simp only [Bool.false_eq_true, if_false, if_neg h1, if_neg h2, if_neg h3,
      if_neg h4]
    have hdel : resetLoginAttempts ip (mapDelete s₅ ip) = mapDelete s₅ ip := by
      unfold resetLoginAttempts
      exact mapDelete_of_get_none _ _ (mapGet_mapDelete_self s₅ ip w₅)
    rw [hdel]

/-- Witness for C2: five concrete wrong-password attempts at times 0…4, then a
sixth attempt with the correct password at 899999 ms (refused) and at
900001 ms (accepted). -/
theorem five_failures_lockout_witness :
    login (fun p h => p == "pw" && h == "hash") ⟨"admin", "hash"⟩ "admin" "pw"
      "ip" 899999 [("ip", ⟨5, 0⟩)] = (.rateLimited, [("ip", ⟨5, 0⟩)]) ∧
    login (fun p h => p == "pw" && h == "hash") ⟨"admin", "hash"⟩ "admin" "pw"
      "ip" 900001 [("ip", ⟨5, 0⟩)] = (.success, []) := by
  have H := five_failures_lockout (fun p h => p == "pw" && h == "hash")
    ⟨"admin", "hash"⟩ "ip" "admin" "bad" "admin" "bad" "admin" "bad" "admin"
    "bad" "admin" "bad" 0 1 2 3 4 [] [("ip", ⟨1, 0⟩)] [("ip", ⟨2, 0⟩)]
    [("ip", ⟨3, 0⟩)] [("ip", ⟨4, 0⟩)] [("ip", ⟨5, 0⟩)]
    .invalidCredentials .invalidCredentials .invalidCredentials
    .invalidCredentials .invalidCredentials
    (by exact List.Pairwise.nil) (by decide)
    (by decide) (Or.inr rfl) (by decide) (Or.inr rfl) (by decide) (Or.inr rfl)
    (by decide) (Or.inr rfl) (by decide) (Or.inr rfl)
    (by decide) (by decide)
  refine ⟨(H "admin" "pw" 899999).1 (by decide), ?_⟩
  have h2 := (H "admin" "pw" 900001).2 (by decide) (by decide) (by decide) rfl
    (by decide) (by decide)
  rw [h2]
  decide

/-! ## C9: the two validators -/

/-- Spec-side reading of "parse as an absolute URL with scheme `http` or
`https`" over the modelled parser. -/
def SpecHttpUrl (s : String) : Prop :=
  ∃ p, parseURL s = some p ∧ (p = "http:" ∨ p = "https:")

/-- Spec-side reading of "exactly `#` followed by 6 hexadecimal digits". -/
def SpecHexColor (s : String) : Prop :=
  ∃ cs : List Char, s.data = '#' :: cs ∧ cs.length = 6 ∧
    ∀ c ∈ cs, isHexDigitChar c = true

/-- C9: `isValidURL` accepts exactly the strings that parse (in the modelled
WHATWG parser) as absolute URLs with scheme `http`/`https`, `isValidHexColor`
accepts exactly `#` followed by six hex digits, and the five concrete
instances from the spec hold. -/
theorem validators_characterization :
    (∀ s, isValidURL s = true ↔ SpecHttpUrl s) ∧
    (∀ s, isValidHexColor s = true ↔ SpecHexColor s) ∧
    isValidURL "ftp://x.com" = false ∧
    isValidURL "https://x.com" = true ∧
    isValidHexColor "#ABC123" = true ∧
    isValidHexColor "ABC123" = false ∧
    isValidHexColor "#abc" = false := by
  refine ⟨?_, ?_, by decide, by decide, by decide, by decide, by decide⟩
  · intro s
    unfold isValidURL SpecHttpUrl
    cases hp : parseURL s with
    | none => simp
    | some p => simp [beq_iff_eq]
  · intro s
    unfold isValidHexColor SpecHexColor
    cases hd : s.data with
    | nil => simp
    | cons c cs =>
      simp only [Bool.and_eq_true, beq_iff_eq, List.all_eq_true,
        List.cons.injEq]
      constructor
      · rintro ⟨⟨hc, hlen⟩, hall⟩
        exact ⟨cs, ⟨hc, rfl⟩, hlen, hall⟩
      · rintro ⟨cs', ⟨hc, hcs⟩, hlen, hall⟩
        subst hcs
        exact ⟨⟨hc, hlen⟩, hall⟩

/-! ## C3: unknown ids abort the reorder with no write -/

/-- C3: whenever the reorder payload names an id with no matching stored
link, the handler answers a validation error carrying the first such id and
the stored document is returned unchanged with no write performed. -/
theorem reorder_unknown_id_no_write (linkIds : List String) (links : List Link)
    (h : ∃ id ∈ linkIds, ∀ l ∈ links, l.id ≠ id) :
    (∃ badId ∈ linkIds, (∀ l ∈ links, l.id ≠ badId) ∧
      reorderOp linkIds links = .error badId) ∧
    reorderStore linkIds links = (links, false) := by
  obtain ⟨id, hmem, hnone⟩ := h
  have hsome : (findMissing linkIds links).isSome = true := by
    rw [findMissing, List.find?_isSome]
    refine ⟨id, hmem, ?_⟩
    simp only [Bool.not_eq_true', existsId, List.any_eq_false]
    intro l hl
    simpa using hnone l hl
  obtain ⟨badId, hfind⟩ := Option.isSome_iff_exists.mp hsome
  have hbadMem : badId ∈ linkIds := List.mem_of_find?_eq_some hfind
  have hbadNone : ∀ l ∈ links, l.id ≠ badId := by
    have := List.find?_some hfind
    simp only [Bool.not_eq_true', existsId, List.any_eq_false] at this
    intro l hl
    simpa using this l hl
  have hop : reorderOp linkIds links = .error badId := by
    unfold reorderOp
    rw [hfind]
  refine ⟨⟨badId, hbadMem, hbadNone, hop⟩, ?_⟩
  unfold reorderStore
  rw [hop]

/-- Witness for C3: payload `["X"]` against a single stored link `"A"`. -/
theorem reorder_unknown_id_no_write_witness :
    (∃ badId ∈ ["X"],
      (∀ l ∈ [({ id := "A", label := "L", url := "https://a.com",
                 visualType := "none", imageUrl := "", iconId := "",
                 iconUrl := "", order := 0, active := true } : Link)],
        l.id ≠ badId) ∧
      reorderOp ["X"]
        [({ id := "A", label := "L", url := "https://a.com",
            visualType := "none", imageUrl := "", iconId := "", iconUrl := "",
            order := 0, active := true } : Link)] = .error badId) ∧
    reorderStore ["X"]
      [({ id := "A", label := "L", url := "https://a.com", visualType := "none",
          imageUrl := "", iconId := "", iconUrl := "", order := 0,
          active := true } : Link)] =
      ([({ id := "A", label := "L", url := "https://a.com", visualType := "none",
           imageUrl := "", iconId := "", iconUrl := "", order := 0,
           active := true } : Link)], false) :=
  reorder_unknown_id_no_write ["X"] _
    ⟨"X", by decide, by decide⟩

/-! ## C10: an update may store the empty string as a url -/

theorem updateFirst_mem (f : Link → Link) (id : String) (links : List Link)
    (hmem : ∃ l ∈ links, l.id = id) :
    ∃ l, l ∈ links ∧ l.id = id ∧ f l ∈ updateFirst f id links := by
  induction links with
  | nil => simp at hmem
  | cons l ls ih =>
    by_cases hl : l.id = id
    · exact ⟨l, List.mem_cons_self l ls, hl, by simp [updateFirst, hl]⟩
    · obtain ⟨l', hl', hid⟩ := hmem
      rcases List.mem_cons.mp hl' with h | h
      · exact absurd (h ▸ hid) hl
      · obtain ⟨l'', hmem'', hid'', hres''⟩ := ih ⟨l', h, hid⟩
        exact ⟨l'', List.mem_cons_of_mem _ hmem'', hid'',
          by simp [updateFirst, hl, hres'']⟩

/-- C10: updating an existing link with `url` supplied as the empty string
(a falsy value, so the `if (url && !isValidURL(url))` check is skipped)
succeeds and stores the trimmed empty string as the link's url, although the
empty string is not a valid http/https URL. -/
theorem update_empty_url_bypasses_validation (links : List Link) (id : String)
    (hmem : ∃ l ∈ links, l.id = id) :
    ∃ res, updateOp { url := some "" } id links = .ok res ∧
      (∃ l' ∈ res, l'.id = id ∧ l'.url = "") ∧
      isValidURL "" = false := by
  have hany : links.any (fun l => l.id == id) = true := by
    rw [List.any_eq_true]
    obtain ⟨l, hl, hid⟩ := hmem
    exact ⟨l, hl, by simpa using hid⟩
  have hok : updateOp { url := some "" } id links =
      .ok (updateFirst (applyUpdate { url := some "" }) id links) := by
    unfold updateOp
    simp [hany]
  refine ⟨_, hok, ?_, by decide⟩
  obtain ⟨l, _, hid, hres⟩ :=
    updateFirst_mem (applyUpdate { url := some "" }) id links hmem
  refine ⟨applyUpdate { url := some "" } l, hres, ?_, ?_⟩
  · simpa [applyUpdate] using hid
  · simp [applyUpdate]
    decide

/-- Witness for C10 on a one-link document. -/
theorem update_empty_url_bypasses_validation_witness :
    ∃ res, updateOp { url := some "" } "A"
        [({ id := "A", label := "L", url := "https://a.com",
            visualType := "none", imageUrl := "", iconId := "", iconUrl := "",
            order := 0, active := true } : Link)] = .ok res ∧
      (∃ l' ∈ res, l'.id = "A" ∧ l'.url = "") ∧
      isValidURL "" = false :=
  update_empty_url_bypasses_validation _ "A"
    ⟨{ id := "A", label := "L", url := "https://a.com", visualType := "none",
       imageUrl := "", iconId := "", iconUrl := "", order := 0,
       active := true }, by decide, rfl⟩

/-! ## C7: create appends with order `max + 1` -/

theorem foldl_max_init_le (l : List Int) (a : Int) : a ≤ l.foldl max a := by
  induction l generalizing a with
  | nil => exact le_refl a
  | cons x l ih => exact le_trans (le_max_left a x) (ih (max a x))

theorem foldl_max_le (l : List Int) (a : Int) :
    ∀ x ∈ l, x ≤ l.foldl max a := by
  induction l generalizing a with
  | nil => intro x hx; simp at hx
  | cons y l ih =>
    intro x hx
    rcases List.mem_cons.mp hx with h | h
    · subst h
      exact le_trans (le_max_right a x) (foldl_max_init_le l (max a x))
    · exact ih (max a y) x h

theorem foldl_max_mem (l : List Int) (a : Int) :
    l.foldl max a = a ∨ l.foldl max a ∈ l := by
  induction l generalizing a with
  | nil => exact Or.inl rfl
  | cons x l ih =>
    rcases ih (max a x) with h | h
    · rcases max_cases a x with ⟨hm, _⟩ | ⟨hm, _⟩
      · exact Or.inl (by rw [List.foldl_cons, h, hm])
      · exact Or.inr (by rw [List.foldl_cons, h, hm]; exact List.mem_cons_self x l)
    · exact Or.inr (List.mem_cons_of_mem x h)

theorem le_jsMaxOrder (links : List Link) :
    ∀ l ∈ links, l.order ≤ jsMaxOrder links := by
  intro l hl
  unfold jsMaxOrder
  cases hm : links.map (·.order) with
  | nil =>
    have : l.order ∈ links.map (·.order) := List.mem_map_of_mem _ hl
    rw [hm] at this
    simp at this
  | cons o os =>
    have : l.order ∈ links.map (·.order) := List.mem_map_of_mem _ hl
    rw [hm] at this
    rcases List.mem_cons.mp this with h | h
    · exact h ▸ foldl_max_init_le os o
    · exact foldl_max_le os o _ h

theorem jsMaxOrder_mem (links : List Link) (h : links ≠ []) :
    jsMaxOrder links ∈ links.map (·.order) := by
  unfold jsMaxOrder
  cases hm : links.map (·.order) with
  | nil =>
    exact absurd (List.map_eq_nil.mp hm) h
  | cons o os =>
    show List.foldl max o os ∈ o :: os
    rcases foldl_max_mem os o with he | he
    · rw [he]; exact List.mem_cons_self o os
    · exact List.mem_cons_of_mem o he

/-- C7: whenever the create handler accepts a payload, the new link is
appended to the document; its `order` is `0` on an empty collection and
otherwise the maximum existing `order` plus one, so it is strictly greater
than every existing `order`. -/
theorem create_order_max_plus_one (p : CreatePayload) (newId : String)
    (links : List Link) (l : Link) (links' : List Link)
    (hop : createOp p newId links = .ok (l, links')) :
    links' = links ++ [l] ∧
    (links = [] → l.order = 0) ∧
    (links ≠ [] → ∃ m, m ∈ links.map (·.order) ∧
      (∀ o ∈ links.map (·.order), o ≤ m) ∧ l.order = m + 1) ∧
    (∀ l' ∈ links, l'.order < l.order) := by
  have hl : l.order = jsMaxOrder links + 1 ∧ links' = links ++ [l] := by
    unfold createOp at hop
    repeat' split at hop
    all_goals try exact Except.noConfusion hop
    simp only [Except.ok.injEq, Prod.mk.injEq] at hop
    obtain ⟨hl, hls⟩ := hop
    subst hl
    subst hls
    exact ⟨rfl, rfl⟩
  refine ⟨hl.2, ?_, ?_, ?_⟩
  · intro he
    rw [hl.1, he]
    decide
  · intro hne
    exact ⟨jsMaxOrder links, jsMaxOrder_mem links hne, by
      intro o ho
      obtain ⟨l', hl', rfl⟩ := List.mem_map.mp ho
      exact le_jsMaxOrder links l' hl', hl.1⟩
  · intro l' hl'
    rw [hl.1]
    exact lt_of_le_of_lt (le_jsMaxOrder links l' hl') (by omega)

/-- Witness for C7: creating into an empty collection yields order 0, and a
second create on top of it yields order 1. -/
theorem create_order_max_plus_one_witness :
    ({ id := "a", label := "L", url := "https://x.com", visualType := "none",
       imageUrl := "", iconId := "", iconUrl := "", order := 0,
       active := true } : Link).order = 0 ∧
    (∃ m, m ∈ ([({ id := "a", label := "L", url := "https://x.com",
                   visualType := "none", imageUrl := "", iconId := "",
                   iconUrl := "", order := 0, active := true } : Link)].map
                 (·.order)) ∧
      (∀ o ∈ ([({ id := "a", label := "L", url := "https://x.com",
                  visualType := "none", imageUrl := "", iconId := "",
                  iconUrl := "", order := 0, active := true } : Link)].map
                (·.order)), o ≤ m) ∧
      ({ id := "b", label := "L", url := "https://x.com", visualType := "none",
         imageUrl := "", iconId := "", iconUrl := "", order := 1,
         active := true } : Link).order = m + 1) :=
  ⟨(create_order_max_plus_one ⟨"L", "https://x.com", "", "", "", ""⟩ "a" []
      { id := "a", label := "L", url := "https://x.com", visualType := "none",
        imageUrl := "", iconId := "", iconUrl := "", order := 0,
        active := true }
      [{ id := "a", label := "L", url := "https://x.com", visualType := "none",
         imageUrl := "", iconId := "", iconUrl := "", order := 0,
         active := true }]
      (by rfl)).2.1 rfl,
   (create_order_max_plus_one ⟨"L", "https://x.com", "", "", "", ""⟩ "b"
      [{ id := "a", label := "L", url := "https://x.com", visualType := "none",
         imageUrl := "", iconId := "", iconUrl := "", order := 0,
         active := true }]
      { id := "b", label := "L", url := "https://x.com", visualType := "none",
        imageUrl := "", iconId := "", iconUrl := "", order := 1,
        active := true }
      [{ id := "a", label := "L", url := "https://x.com", visualType := "none",
         imageUrl := "", iconId := "", iconUrl := "", order := 0,
         active := true },
       { id := "b", label := "L", url := "https://x.com", visualType := "none",
         imageUrl := "", iconId := "", iconUrl := "", order := 1,
         active := true }]
      (by rfl)).2.2.1 (by decide)⟩

/-! ## C8: update frame properties -/

/-- C8 counterexample: updating only `visualType` (from `"image"` to
`"none"`) rewrites the unsupplied `imageUrl` field from
`"https://a.com/i.jpg"` to `""`, so an update does not leave every
unsupplied field at its previous value. -/
theorem update_visual_type_clears_unsupplied :
    ({ visualType := some "none" } : UpdatePayload).imageUrl = none ∧
    updateOp { visualType := some "none" } "a"
      [{ id := "a", label := "x", url := "https://a.com", visualType := "image",
         imageUrl := "https://a.com/i.jpg", iconId := "", iconUrl := "",
         order := 0, active := true }] =
      .ok [{ id := "a", label := "x", url := "https://a.com",
             visualType := "none", imageUrl := "", iconId := "", iconUrl := "",
             order := 0, active := true }] ∧
    ("" : String) ≠ "https://a.com/i.jpg" :=
  ⟨rfl, by rfl, by decide⟩

theorem updateOp_ok_found (p : UpdatePayload) (id : String) (links : List Link)
    (res : List Link) (hop : updateOp p id links = .ok res) :
    links.any (fun l => l.id == id) = true := by
  by_contra hf
  unfold updateOp at hop
  rw [if_pos hf] at hop
  exact Except.noConfusion hop

theorem updateOp_ok_res (p : UpdatePayload) (id : String) (links : List Link)
    (res : List Link) (hop : updateOp p id links = .ok res) :
    res = updateFirst (applyUpdate p) id links := by
  unfold updateOp at hop
  repeat' split at hop
  all_goals try exact Except.noConfusion hop
  all_goals (injection hop with h; exact h.symm)

theorem updateFirst_spec (f : Link → Link) (id : String) (links : List Link)
    (hfound : links.any (fun l => l.id == id) = true) :
    ∃ i, ∃ hi : i < links.length, (links.get ⟨i, hi⟩).id = id ∧
      updateFirst f id links = links.set i (f (links.get ⟨i, hi⟩)) := by
  induction links with
  | nil => simp at hfound
  | cons l ls ih =>
    by_cases hl : l.id = id
    · exact ⟨0, by simp, by simpa using hl, by simp [updateFirst, hl]⟩
    · have htail : ls.any (fun l => l.id == id) = true := by
        simpa [hl] using hfound
      obtain ⟨i, hi, hid, hset⟩ := ih htail
      refine ⟨i + 1, by simpa using hi, by simpa using hid, ?_⟩
      simp [updateFirst, hl, hset]

theorem applyUpdate_fields (p : UpdatePayload) (l : Link) :
    (applyUpdate p l).order = l.order ∧
    (applyUpdate p l).id = l.id ∧
    (p.label = none → (applyUpdate p l).label = l.label) ∧
    (p.url = none → (applyUpdate p l).url = l.url) ∧
    (p.active = none → (applyUpdate p l).active = l.active) ∧
    (p.visualType = none →
      (applyUpdate p l).visualType = l.visualType ∧
      (applyUpdate p l).imageUrl = l.imageUrl ∧
      (applyUpdate p l).iconId = l.iconId ∧
      (applyUpdate p l).iconUrl = l.iconUrl) := by
  unfold applyUpdate
  cases hlab : p.label <;> cases hurl : p.url <;> cases hvt : p.visualType <;>
    cases hact : p.active <;> simp_all <;> split_ifs <;> simp_all

/-- C8 amended: a successful update leaves the document's length unchanged,
touches exactly the first link whose id matches, leaves every other link
untouched, never changes the matched link's `order` or `id`, keeps every
plain field that was not supplied (`label`, `url`, `active`), and — the part
the counterexample forces — keeps `visualType`, `imageUrl`, `iconId` and
`iconUrl` only when `visualType` itself was not supplied (a supplied
`visualType` rewrites all the visual-detail fields). -/
theorem update_only_supplied_fields (p : UpdatePayload) (id : String)
    (links : List Link) (res : List Link)
    (hop : updateOp p id links = .ok res) :
    res.length = links.length ∧
    ∃ i, ∃ hi : i < links.length, ∃ hi' : i < res.length,
      (links.get ⟨i, hi⟩).id = id ∧
      (∀ j, ∀ hj : j < links.length, ∀ hj' : j < res.length, j ≠ i →
        res.get ⟨j, hj'⟩ = links.get ⟨j, hj⟩) ∧
      (res.get ⟨i, hi'⟩).order = (links.get ⟨i, hi⟩).order ∧
      (res.get ⟨i, hi'⟩).id = (links.get ⟨i, hi⟩).id ∧
      (p.label = none → (res.get ⟨i, hi'⟩).label = (links.get ⟨i, hi⟩).label) ∧
      (p.url = none → (res.get ⟨i, hi'⟩).url = (links.get ⟨i, hi⟩).url) ∧
      (p.active = none → (res.get ⟨i, hi'⟩).active = (links.get ⟨i, hi⟩).active) ∧
      (p.visualType = none →
        (res.get ⟨i, hi'⟩).visualType = (links.get ⟨i, hi⟩).visualType ∧
        (res.get ⟨i, hi'⟩).imageUrl = (links.get ⟨i, hi⟩).imageUrl ∧
        (res.get ⟨i, hi'⟩).iconId = (links.get ⟨i, hi⟩).iconId ∧
        (res.get ⟨i, hi'⟩).iconUrl = (links.get ⟨i, hi⟩).iconUrl) := by
  have hfound := updateOp_ok_found p id links res hop
  have hres := updateOp_ok_res p id links res hop
  obtain ⟨i, hi, hid, hset⟩ := updateFirst_spec (applyUpdate p) id links hfound
  subst hres
  rw [hset]
  have hlen : (links.set i (applyUpdate p (links.get ⟨i, hi⟩))).length =
      links.length := List.length_set links i _
  refine ⟨hlen, i, hi, by rw [hlen]; exact hi, hid, ?_, ?_⟩
  · intro j hj hj' hne
    simp only [List.get_eq_getElem]
    exact List.getElem_set_ne (fun h => hne h.symm) hj'
  · have hat : (links.set i (applyUpdate p (links.get ⟨i, hi⟩))).get
        ⟨i, by rw [hlen]; exact hi⟩ = applyUpdate p (links.get ⟨i, hi⟩) := by
      simp only [List.get_eq_getElem]
      exact List.getElem_set_self _
    rw [hat]
    have hf := applyUpdate_fields p (links.get ⟨i, hi⟩)
    exact ⟨hf.1, hf.2.1, hf.2.2.1, hf.2.2.2.1, hf.2.2.2.2.1, hf.2.2.2.2.2⟩

/-- Witness for the amended C8: updating only the label of a one-link
document. -/
theorem update_only_supplied_fields_witness :
    updateOp { label := some "New" } "a"
      [{ id := "a", label := "x", url := "https://a.com", visualType := "none",
         imageUrl := "", iconId := "", iconUrl := "", order := 0,
         active := true }] =
      .ok [{ id := "a", label := "New", url := "https://a.com",
             visualType := "none", imageUrl := "", iconId := "", iconUrl := "",
             order := 0, active := true }] ∧
    ([({ id := "a", label := "New", url := "https://a.com",
         visualType := "none", imageUrl := "", iconId := "", iconUrl := "",
         order := 0, active := true } : Link)]).length =
      ([({ id := "a", label := "x", url := "https://a.com",
           visualType := "none", imageUrl := "", iconId := "", iconUrl := "",
           order := 0, active := true } : Link)]).length :=
  ⟨by rfl,
   (update_only_supplied_fields { label := some "New" } "a"
      [{ id := "a", label := "x", url := "https://a.com", visualType := "none",
         imageUrl := "", iconId := "", iconUrl := "", order := 0,
         active := true }]
      [{ id := "a", label := "New", url := "https://a.com",
         visualType := "none", imageUrl := "", iconId := "", iconUrl := "",
         order := 0, active := true }] (by rfl)).1⟩

/-! ## C1: the shape of the document after a successful reorder -/

/-- Index of the last occurrence of `t`, matching the net effect of the
payload `forEach` (a later duplicate overwrites an earlier index). -/
def lastIdxOf : List String → String → Option Nat
  | [], _ => none
  | x :: xs, t =>
    match lastIdxOf xs t with
    | some j => some (j + 1)
    | none => if x = t then some 0 else none

/-- Net effect of the payload `forEach` on one link. -/
def orderAssignment (ids : List String) (l : Link) : Link :=
  match lastIdxOf ids l.id with
  | some j => { l with order := (j : Int) }
  | none => l

/-- Stamp consecutive `order` values starting at `base` along a list. -/
def stampOrders (base : Nat) : List Link → List Link
  | [] => []
  | l :: ls => { l with order := (base : Int) } :: stampOrders (base + 1) ls

/-- The stored link with a given id (the first match, which is the only one
when ids are unique; `default` when absent, unreached under the theorems'
hypotheses). -/
def lookupLink (links : List Link) (id : String) : Link :=
  match links with
  | [] => default
  | l :: ls => if l.id = id then l else lookupLink ls id

/-- The links named by the payload, in payload order, with `order` equal to
the payload position. -/
def namedPart (linkIds : List String) (links : List Link) : List Link :=
  stampOrders 0 (linkIds.map (lookupLink links))

/-- The links not named by the payload, in stored-array order, with
consecutive `order` values starting at the payload length. -/
def unnamedPart (linkIds : List String) (links : List Link) : List Link :=
  stampOrders linkIds.length (links.filter (fun l => ! includes linkIds l.id))

theorem includes_iff (ids : List String) (id : String) :
    includes ids id = true ↔ id ∈ ids := by
  simp [includes, List.any_eq_true]

theorem lastIdxOf_lt_length (ids : List String) (t : String) (j : Nat)
    (h : lastIdxOf ids t = some j) : j < ids.length := by
  induction ids generalizing j with
  | nil => simp [lastIdxOf] at h
  | cons x xs ih =>
    unfold lastIdxOf at h
    cases hx : lastIdxOf xs t with
    | some j' =>
      rw [hx] at h
      injection h with h
      subst h
      simpa using ih j' hx
    | none =>
      rw [hx] at h
      by_cases he : x = t
      · rw [if_pos he] at h
        injection h with h
        subst h
        simp
      · rw [if_neg he] at h
        exact Option.noConfusion h

theorem lastIdxOf_get (ids : List String) (t : String) (j : Nat)
    (h : lastIdxOf ids t = some j) : ids.get? j = some t := by
  induction ids generalizing j with
  | nil => simp [lastIdxOf] at h
  | cons x xs ih =>
    unfold lastIdxOf at h
    cases hx : lastIdxOf xs t with
    | some j' =>
      rw [hx] at h
      injection h with h
      subst h
      simpa using ih j' hx
    | none =>
      rw [hx] at h
      by_cases he : x = t
      · rw [if_pos he] at h
        injection h with h
        subst h
        simpa using he
      · rw [if_neg he] at h
        exact Option.noConfusion h

theorem lastIdxOf_eq_none_iff (ids : List String) (t : String) :
    lastIdxOf ids t = none ↔ t ∉ ids := by
  induction ids with
  | nil => simp [lastIdxOf]
  | cons x xs ih =>
    unfold lastIdxOf
    cases hx : lastIdxOf xs t with
    | some j =>
      have ht : t ∈ xs := by
        obtain ⟨hj, hget⟩ := List.get?_eq_some.mp (lastIdxOf_get xs t j hx)
        exact hget ▸ List.get_mem xs j hj
      constructor
      · intro h; exact Option.noConfusion h
      · intro h; exact absurd (List.mem_cons_of_mem x ht) h
    | none =>
      by_cases he : x = t
      · simp [he, if_pos]
      · simp only [if_neg he, List.mem_cons, not_or]
        rw [ih] at hx
        constructor
        · intro _
          exact ⟨fun h => he h.symm, hx⟩
        · intro _
          trivial

theorem lastIdxOf_of_nodup_get (ids : List String) (t : String) (i : Nat)
    (hnd : ids.Nodup) (h : ids.get? i = some t) : lastIdxOf ids t = some i := by
  induction ids generalizing i with
  | nil => simp at h
  | cons x xs ih =>
    have hx_not : x ∉ xs := (List.nodup_cons.mp hnd).1
    have hnd' : xs.Nodup := (List.nodup_cons.mp hnd).2
    cases i with
    | zero =>
      simp only [List.get?_cons_zero, Option.some.injEq] at h
      subst h
      have : lastIdxOf xs x = none := (lastIdxOf_eq_none_iff xs x).mpr hx_not
      unfold lastIdxOf
      rw [this, if_pos rfl]
    | succ i =>
      simp only [List.get?_cons_succ] at h
      have := ih i hnd' h
      unfold lastIdxOf
      rw [this]

theorem orderAssignment_id (ids : List String) (l : Link) :
    (orderAssignment ids l).id = l.id := by
  unfold orderAssignment
  cases lastIdxOf ids l.id <;> simp

theorem lastIdxOf_cons_some (x : String) (xs : List String) (t : String)
    (j : Nat) (h : lastIdxOf xs t = some j) :
    lastIdxOf (x :: xs) t = some (j + 1) := by
  unfold lastIdxOf
  rw [h]

theorem lastIdxOf_cons_none_eq (x : String) (xs : List String)
    (h : lastIdxOf xs x = none) : lastIdxOf (x :: xs) x = some 0 := by
  unfold lastIdxOf
  rw [h, if_pos rfl]

theorem lastIdxOf_cons_none_ne (x : String) (xs : List String) (t : String)
    (h : lastIdxOf xs t = none) (hne : x ≠ t) :
    lastIdxOf (x :: xs) t = none := by
  unfold lastIdxOf
  rw [h, if_neg hne]

theorem applyNamed_pointwise (id : String) (ids : List String) (i : Nat)
    (l : Link) :
    (match lastIdxOf ids (if l.id = id then { l with order := (i : Int) }
        else l).id with
     | some j => { (if l.id = id then { l with order := (i : Int) } else l) with
                     order := ((i + 1 + j : Nat) : Int) }
     | none => (if l.id = id then { l with order := (i : Int) } else l)) =
    (match lastIdxOf (id :: ids) l.id with
     | some j => { l with order := ((i + j : Nat) : Int) }
     | none => l) := by
  by_cases he : l.id = id
  · rw [if_pos he]
    dsimp only
    cases hx : lastIdxOf ids l.id with
    | some j =>
      rw [lastIdxOf_cons_some id ids l.id j hx]
      dsimp only
      congr 1
      omega
    | none =>
      rw [show lastIdxOf (id :: ids) l.id = some 0 from by
        rw [he]; exact lastIdxOf_cons_none_eq id ids (he ▸ hx)]
      dsimp only
      congr 1
  · rw [if_neg he]
    cases hx : lastIdxOf ids l.id with
    | some j =>
      rw [lastIdxOf_cons_some id ids l.id j hx]
      dsimp only
      congr 1
      omega
    | none =>
      rw [lastIdxOf_cons_none_ne id ids l.id hx (fun h => he h.symm)]

theorem applyNamedAux_eq (ids : List String) :
    ∀ (i : Nat) (links : List Link),
      applyNamedAux i ids links =
        links.map (fun l =>
          match lastIdxOf ids l.id with
          | some j => { l with order := ((i + j : Nat) : Int) }
          | none => l) := by
  induction ids with
  | nil =>
    intro i links
    unfold applyNamedAux lastIdxOf
    simp
  | cons id ids ih =>
    intro i links
    unfold applyNamedAux
    rw [ih (i + 1) (setOrderById links id (i : Int)), setOrderById,
      List.map_map]
    refine List.map_congr_left ?_
    intro l _
    simp only [Function.comp]
    exact applyNamed_pointwise id ids i l

theorem applyNamedOrders_eq (ids : List String) (links : List Link) :
    applyNamedOrders ids links = links.map (orderAssignment ids) := by
  unfold applyNamedOrders
  rw [applyNamedAux_eq ids 0 links]
  refine List.map_congr_left ?_
  intro l _
  unfold orderAssignment
  cases lastIdxOf ids l.id with
  | some j => simp
  | none => rfl

theorem stampOrders_length (base : Nat) (ls : List Link) :
    (stampOrders base ls).length = ls.length := by
  induction ls generalizing base with
  | nil => rfl
  | cons l ls ih => simp [stampOrders, ih]

theorem stampOrders_get (ls : List Link) : ∀ (base i : Nat)
    (hi : i < (stampOrders base ls).length),
    (stampOrders base ls).get ⟨i, hi⟩ =
      { ls.get ⟨i, by rw [← stampOrders_length base ls]; exact hi⟩ with
          order := ((base + i : Nat) : Int) } := by
  induction ls with
  | nil =>
    intro base i hi
    simp [stampOrders] at hi
  | cons l ls ih =>
    intro base i hi
    cases i with
    | zero => simp [stampOrders]
    | succ i =>
      have hi' : i < (stampOrders (base + 1) ls).length := by
        simpa [stampOrders] using hi
      have := ih (base + 1) i hi'
      simp only [stampOrders, List.get_cons_succ, this]
      congr 1
      omega

theorem stampOrders_map_id (base : Nat) (ls : List Link) :
    (stampOrders base ls).map (·.id) = ls.map (·.id) := by
  induction ls generalizing base with
  | nil => rfl
  | cons l ls ih => simp [stampOrders, ih]

theorem stampOrders_order_mem (base : Nat) (ls : List Link) (o : Int)
    (h : o ∈ (stampOrders base ls).map (·.order)) :
    ∃ i, i < ls.length ∧ o = ((base + i : Nat) : Int) := by
  induction ls generalizing base with
  | nil => simp [stampOrders] at h
  | cons l ls ih =>
    simp only [stampOrders, List.map_cons, List.mem_cons] at h
    rcases h with h | h
    · exact ⟨0, by simp, by simpa using h⟩
    · obtain ⟨i, hi, ho⟩ := ih (base + 1) h
      exact ⟨i + 1, by simpa using hi, by rw [ho]; congr 1; omega⟩

theorem stampOrders_orders_nodup (base : Nat) (ls : List Link) :
    ((stampOrders base ls).map (·.order)).Nodup := by
  induction ls generalizing base with
  | nil => simp [stampOrders]
  | cons l ls ih =>
    simp only [stampOrders, List.map_cons, List.nodup_cons]
    refine ⟨?_, ih (base + 1)⟩
    intro hmem
    obtain ⟨i, _, ho⟩ := stampOrders_order_mem (base + 1) ls _ hmem
    omega

theorem stampOrders_mem_iff (base : Nat) (ls : List Link) (a : Link) :
    a ∈ stampOrders base ls ↔
      ∃ i, ∃ hi : i < ls.length,
        a = { ls.get ⟨i, hi⟩ with order := ((base + i : Nat) : Int) } := by
  constructor
  · intro hmem
    obtain ⟨⟨i, hi⟩, hget⟩ := List.mem_iff_get.mp hmem
    refine ⟨i, by rw [← stampOrders_length base ls]; exact hi, ?_⟩
    rw [← hget, stampOrders_get ls base i hi]
  · rintro ⟨i, hi, rfl⟩
    have hi' : i < (stampOrders base ls).length := by
      rw [stampOrders_length]; exact hi
    have := stampOrders_get ls base i hi'
    rw [← this]
    exact List.get_mem _ i hi'

theorem assignRemainder_filter_named (ids : List String) :
    ∀ (base : Nat) (ls : List Link),
      (assignRemainder ids base ls).filter (fun l => includes ids l.id) =
        ls.filter (fun l => includes ids l.id) := by
  intro base ls
  induction ls generalizing base with
  | nil => rfl
  | cons l ls ih =>
    by_cases hc : includes ids l.id = true
    · simp [assignRemainder, hc, List.filter_cons, ih]
    · simp only [assignRemainder, Bool.not_eq_true] at hc ⊢
      rw [if_neg (by simp [hc])]
      simp [List.filter_cons, hc, ih]

theorem assignRemainder_filter_unnamed (ids : List String) :
    ∀ (base : Nat) (ls : List Link),
      (assignRemainder ids base ls).filter (fun l => ! includes ids l.id) =
        stampOrders base (ls.filter (fun l => ! includes ids l.id)) := by
  intro base ls
  induction ls generalizing base with
  | nil => rfl
  | cons l ls ih =>
    by_cases hc : includes ids l.id = true
    · simp [assignRemainder, hc, List.filter_cons, ih]
    · simp only [assignRemainder, Bool.not_eq_true] at hc ⊢
      rw [if_neg (by simp [hc])]
      simp [List.filter_cons, hc, ih, stampOrders]

theorem assignRemainder_map_id (ids : List String) :
    ∀ (base : Nat) (ls : List Link),
      (assignRemainder ids base ls).map (·.id) = ls.map (·.id) := by
  intro base ls
  induction ls generalizing base with
  | nil => rfl
  | cons l ls ih =>
    by_cases hc : includes ids l.id = true
    · simp [assignRemainder, hc, ih]
    · simp only [assignRemainder]
      rw [if_neg (by simp [hc])]
      simp [ih]

theorem reorderOp_ok_of_all_found (linkIds : List String) (links : List Link)
    (h : ∀ id ∈ linkIds, ∃ l ∈ links, l.id = id) :
    reorderOp linkIds links =
      .ok (assignRemainder linkIds linkIds.length
        (applyNamedOrders linkIds links)) := by
  have hnone : findMissing linkIds links = none := by
    rw [findMissing, List.find?_eq_none]
    intro id hid
    obtain ⟨l, hl, hlid⟩ := h id hid
    simp only [Bool.not_eq_true', Bool.not_eq_false, existsId, List.any_eq_true]
    exact ⟨l, hl, by simpa using hlid⟩
  unfold reorderOp
  rw [hnone]

theorem lookupLink_self (links : List Link) (l : Link)
    (h3 : (links.map (·.id)).Nodup) (hl : l ∈ links) :
    lookupLink links l.id = l := by
  induction links with
  | nil => simp at hl
  | cons a ls ih =>
    have hcons : a.id ∉ ls.map (·.id) ∧ (ls.map (·.id)).Nodup := by
      rw [List.map_cons, List.nodup_cons] at h3
      exact h3
    unfold lookupLink
    by_cases ha : a.id = l.id
    · rw [if_pos ha]
      rcases List.mem_cons.mp hl with h | h
      · exact h.symm
      · exact absurd (ha ▸ List.mem_map_of_mem (·.id) h) hcons.1
    · rw [if_neg ha]
      rcases List.mem_cons.mp hl with h | h
      · exact absurd (by rw [h]) ha
      · exact ih hcons.2 h

theorem lookupLink_eq_of (links : List Link) (l : Link) (id : String)
    (h3 : (links.map (·.id)).Nodup) (hl : l ∈ links) (hid : l.id = id) :
    lookupLink links id = l := by
  rw [← hid]
  exact lookupLink_self links l h3 hl

theorem lookupLink_id (links : List Link) (id : String)
    (h : ∃ l ∈ links, l.id = id) : (lookupLink links id).id = id := by
  induction links with
  | nil => simp at h
  | cons a ls ih =>
    unfold lookupLink
    by_cases ha : a.id = id
    · rw [if_pos ha]
      exact ha
    · rw [if_neg ha]
      obtain ⟨l, hl, hid⟩ := h
      rcases List.mem_cons.mp hl with hh | hh
      · exact absurd (hh ▸ hid) ha
      · exact ih ⟨l, hh, hid⟩

theorem namedPart_map_id (linkIds : List String) (links : List Link)
    (h2 : ∀ id ∈ linkIds, ∃ l ∈ links, l.id = id) :
    (namedPart linkIds links).map (·.id) = linkIds := by
  unfold namedPart
  rw [stampOrders_map_id, List.map_map]
  have : ∀ id ∈ linkIds, ((·.id) ∘ lookupLink links) id = id := by
    intro id hid
    exact lookupLink_id links id (h2 id hid)
  rw [List.map_congr_left this]
  exact List.map_id linkIds

theorem unnamedPart_map_id (linkIds : List String) (links : List Link) :
    (unnamedPart linkIds links).map (·.id) =
      (links.filter (fun l => ! includes linkIds l.id)).map (·.id) := by
  unfold unnamedPart
  rw [stampOrders_map_id]

theorem applyNamed_filter_named (linkIds : List String) (links : List Link) :
    (applyNamedOrders linkIds links).filter (fun l => includes linkIds l.id) =
      (links.filter (fun l => includes linkIds l.id)).map
        (orderAssignment linkIds) := by
  rw [applyNamedOrders_eq, List.filter_map]
  congr 1
  refine List.filter_congr ?_
  intro l _
  simp only [Function.comp]
  rw [orderAssignment_id]

theorem applyNamed_filter_unnamed (linkIds : List String) (links : List Link) :
    (applyNamedOrders linkIds links).filter
        (fun l => ! includes linkIds l.id) =
      links.filter (fun l => ! includes linkIds l.id) := by
  rw [applyNamedOrders_eq, List.filter_map]
  have hpred : List.filter ((fun l => ! includes linkIds l.id) ∘
      orderAssignment linkIds) links =
      links.filter (fun l => ! includes linkIds l.id) := by
    refine List.filter_congr ?_
    intro l _
    simp only [Function.comp]
    rw [orderAssignment_id]
  rw [hpred]
  have hmapid : (links.filter (fun l => ! includes linkIds l.id)).map
      (orderAssignment linkIds) =
      (links.filter (fun l => ! includes linkIds l.id)).map (fun l => l) := by
    refine List.map_congr_left ?_
    intro l hl
    have hni : l.id ∉ linkIds := by
      have := (List.mem_filter.mp hl).2
      simp only [Bool.not_eq_true'] at this
      intro hmem
      rw [(includes_iff linkIds l.id).mpr hmem] at this
      exact Bool.noConfusion this
    unfold orderAssignment
    rw [(lastIdxOf_eq_none_iff linkIds l.id).mpr hni]
  rw [hmapid]
  exact List.map_id _

theorem applyNamed_map_id (linkIds : List String) (links : List Link) :
    (applyNamedOrders linkIds links).map (·.id) = links.map (·.id) := by
  rw [applyNamedOrders_eq, List.map_map]
  refine List.map_congr_left ?_
  intro l _
  simp only [Function.comp]
  rw [orderAssignment_id]

theorem orderAssignment_mem_namedPart (linkIds : List String)
    (links : List Link) (l : Link) (h3 : (links.map (·.id)).Nodup)
    (hl : l ∈ links) (hin : l.id ∈ linkIds) :
    orderAssignment linkIds l ∈ namedPart linkIds links := by
  cases hx : lastIdxOf linkIds l.id with
  | none => exact absurd ((lastIdxOf_eq_none_iff linkIds l.id).mp hx) (by
      intro h; exact h hin)
  | some j =>
    have hget := lastIdxOf_get linkIds l.id j hx
    obtain ⟨hj, hgetv⟩ := List.get?_eq_some.mp hget
    rw [namedPart, stampOrders_mem_iff]
    refine ⟨j, by simpa using hj, ?_⟩
    have hgetmap : (linkIds.map (lookupLink links)).get ⟨j, by simpa using hj⟩ =
        lookupLink links (linkIds.get ⟨j, hj⟩) := by
      simp [List.get_eq_getElem, List.getElem_map]
    rw [hgetmap, hgetv, lookupLink_self links l h3 hl]
    unfold orderAssignment
    rw [hx]
    dsimp only
    exact congrArg (fun o => ({ l with order := o } : Link)) (by omega)

/-- C1 amended: for every duplicate-free payload naming only existing ids
over a document with unique link ids, the reorder succeeds; the result keeps
the stored array's ids in place, and is a permutation of
`namedPart ++ unnamedPart` — the named links in payload order carrying their
payload positions as `order`, followed by the links not named in the payload
at consecutive `order` values starting at the payload length, in the relative
order they occupied in the stored array (not in the order given by their
previous `order` fields); since that concatenation carries orders
`0, 1, 2, …` at positions `0, 1, 2, …`, it is exactly the result of sorting
the stored links by `order` ascending. -/
theorem reorder_sorted_named_then_array_remainder (linkIds : List String)
    (links : List Link) (h1 : linkIds.Nodup)
    (h2 : ∀ id ∈ linkIds, ∃ l ∈ links, l.id = id)
    (h3 : (links.map (·.id)).Nodup) :
    ∃ res, reorderOp linkIds links = .ok res ∧
      res.map (·.id) = links.map (·.id) ∧
      res.Perm (namedPart linkIds links ++ unnamedPart linkIds links) ∧
      (∀ i, ∀ hi : i <
          (namedPart linkIds links ++ unnamedPart linkIds links).length,
        ((namedPart linkIds links ++ unnamedPart linkIds links).get
          ⟨i, hi⟩).order = (i : Int)) := by
  refine ⟨_, reorderOp_ok_of_all_found linkIds links h2, ?_, ?_, ?_⟩
  · rw [assignRemainder_map_id, applyNamed_map_id]
  · have hresIds : (assignRemainder linkIds linkIds.length
        (applyNamedOrders linkIds links)).map (·.id) = links.map (·.id) := by
      rw [assignRemainder_map_id, applyNamed_map_id]
    have ndres : (assignRemainder linkIds linkIds.length
        (applyNamedOrders linkIds links)).Nodup :=
      List.Nodup.of_map (·.id) (by rw [hresIds]; exact h3)
    have ndnamed : (namedPart linkIds links).Nodup :=
      List.Nodup.of_map (·.id) (by rw [namedPart_map_id linkIds links h2]; exact h1)
    have ndunnamed : (unnamedPart linkIds links).Nodup :=
      List.Nodup.of_map (·.id) (by
        rw [unnamedPart_map_id]
        exact ((List.filter_sublist links).map (·.id)).nodup h3)
    have hdisj : (namedPart linkIds links).Disjoint (unnamedPart linkIds links) := by
      intro a ha hb
      have hida : a.id ∈ linkIds := by
        rw [← namedPart_map_id linkIds links h2]
        exact List.mem_map_of_mem (·.id) ha
      have hidb : a.id ∈ (links.filter
          (fun l => ! includes linkIds l.id)).map (·.id) := by
        rw [← unnamedPart_map_id]
        exact List.mem_map_of_mem (·.id) hb
      obtain ⟨l, hlmem, hlid⟩ := List.mem_map.mp hidb
      have hfl := (List.mem_filter.mp hlmem).2
      simp only [Bool.not_eq_true'] at hfl
      rw [(includes_iff linkIds l.id).mpr (hlid ▸ hida)] at hfl
      exact Bool.noConfusion hfl
    refine (List.perm_ext_iff_of_nodup ndres
      (List.Nodup.append ndnamed ndunnamed hdisj)).mpr ?_
    intro a
    constructor
    · intro ha
      by_cases hp : includes linkIds a.id = true
      · have ha' : a ∈ (assignRemainder linkIds linkIds.length
            (applyNamedOrders linkIds links)).filter
            (fun l => includes linkIds l.id) := List.mem_filter.mpr ⟨ha, hp⟩
        rw [assignRemainder_filter_named, applyNamed_filter_named] at ha'
        obtain ⟨l, hlf, hfa⟩ := List.mem_map.mp ha'
        obtain ⟨hlmem, hlinc⟩ := List.mem_filter.mp hlf
        rw [← hfa]
        exact List.mem_append_left _ (orderAssignment_mem_namedPart linkIds
          links l h3 hlmem ((includes_iff _ _).mp hlinc))
      · have hp' : (! includes linkIds a.id) = true := by
          simp [Bool.not_eq_true'] at hp ⊢
          exact hp
        have ha' : a ∈ (assignRemainder linkIds linkIds.length
            (applyNamedOrders linkIds links)).filter
            (fun l => ! includes linkIds l.id) := List.mem_filter.mpr ⟨ha, hp'⟩
        rw [assignRemainder_filter_unnamed, applyNamed_filter_unnamed] at ha'
        exact List.mem_append_right _ ha'
    · intro ha
      rcases List.mem_append.mp ha with ha | ha
      · rw [namedPart] at ha
        obtain ⟨i, hi, rfl⟩ := (stampOrders_mem_iff _ _ _).mp ha
        have hi' : i < linkIds.length := by simpa using hi
        have hgetmap : (linkIds.map (lookupLink links)).get ⟨i, hi⟩ =
            lookupLink links (linkIds.get ⟨i, hi'⟩) := by
          simp [List.get_eq_getElem, List.getElem_map]
        have hid0mem : linkIds.get ⟨i, hi'⟩ ∈ linkIds := List.get_mem _ _ _
        obtain ⟨l, hlmem, hlid⟩ := h2 (linkIds.get ⟨i, hi'⟩) hid0mem
        have hlook : lookupLink links (linkIds.get ⟨i, hi'⟩) = l :=
          lookupLink_eq_of links l _ h3 hlmem hlid
        have hx : lastIdxOf linkIds l.id = some i := by
          refine lastIdxOf_of_nodup_get linkIds l.id i h1 ?_
          rw [hlid]
          exact List.get?_eq_some.mpr ⟨hi', rfl⟩
        have hform : orderAssignment linkIds l =
            { (linkIds.map (lookupLink links)).get ⟨i, hi⟩ with
                order := ((0 + i : Nat) : Int) } := by
          rw [hgetmap, hlook]
          unfold orderAssignment
          rw [hx]
          dsimp only
          exact congrArg (fun o => ({ l with order := o } : Link)) (by omega)
        rw [← hform]
        have hfl : l ∈ links.filter (fun l' => includes linkIds l'.id) :=
          List.mem_filter.mpr ⟨hlmem, (includes_iff _ _).mpr
            (by rw [hlid]; exact hid0mem)⟩
        have hmm : orderAssignment linkIds l ∈ (links.filter
            (fun l' => includes linkIds l'.id)).map (orderAssignment linkIds) :=
          List.mem_map_of_mem _ hfl
        rw [← applyNamed_filter_named, ← assignRemainder_filter_named] at hmm
        exact (List.mem_filter.mp hmm).1
      · have hmm : a ∈ (assignRemainder linkIds linkIds.length
            (applyNamedOrders linkIds links)).filter
            (fun l => ! includes linkIds l.id) := by
          rw [assignRemainder_filter_unnamed, applyNamed_filter_unnamed]
          exact ha
        exact (List.mem_filter.mp hmm).1
  · intro i hi
    have hlenN : (namedPart linkIds links).length = linkIds.length := by
      rw [namedPart, stampOrders_length, List.length_map]
    by_cases hlt : i < (namedPart linkIds links).length
    · rw [List.get_eq_getElem, List.getElem_append_left hlt]
      have hi2 : i < (stampOrders 0 (linkIds.map (lookupLink links))).length := hlt
      rw [show (namedPart linkIds links)[i] =
          (namedPart linkIds links).get ⟨i, hlt⟩ from rfl,
        show (namedPart linkIds links).get ⟨i, hlt⟩ =
          (stampOrders 0 (linkIds.map (lookupLink links))).get ⟨i, hi2⟩ from rfl,
        stampOrders_get]
      dsimp only
      omega
    · have hge : (namedPart linkIds links).length ≤ i := le_of_not_lt hlt
      rw [List.get_eq_getElem, List.getElem_append_right hge]
      have hibound : i - (namedPart linkIds links).length <
          (unnamedPart linkIds links).length := by
        have := hi
        rw [List.length_append] at this
        omega
      have hib2 : i - (namedPart linkIds links).length <
          (stampOrders linkIds.length
            (links.filter (fun l => ! includes linkIds l.id))).length := hibound
      rw [show (unnamedPart linkIds links)[i - (namedPart linkIds links).length] =
          (unnamedPart linkIds links).get
            ⟨i - (namedPart linkIds links).length, hibound⟩ from rfl,
        show (unnamedPart linkIds links).get
            ⟨i - (namedPart linkIds links).length, hibound⟩ =
          (stampOrders linkIds.length
            (links.filter (fun l => ! includes linkIds l.id))).get
            ⟨i - (namedPart linkIds links).length, hib2⟩ from rfl,
        stampOrders_get]
      dsimp only
      omega

/-- C1 counterexample: with the stored array `[C(order 2), A(order 1),
B(order 0)]` — not sorted by `order` — and the duplicate-free payload
`["C"]` of existing ids, the handler assigns the remainder from the array
order (`A` before `B`), producing orders `C=0, A=1, B=2`; the claim requires
the remainder in its previous by-`order` order (`B` before `A`), that is
`C=0, A=2, B=1`, which the code refutes. -/
theorem reorder_remainder_not_prior_order :
    reorderOp ["C"]
      [{ id := "C", label := "L", url := "https://c.com", visualType := "none",
         imageUrl := "", iconId := "", iconUrl := "", order := 2,
         active := true },
       { id := "A", label := "L", url := "https://a.com", visualType := "none",
         imageUrl := "", iconId := "", iconUrl := "", order := 1,
         active := true },
       { id := "B", label := "L", url := "https://b.com", visualType := "none",
         imageUrl := "", iconId := "", iconUrl := "", order := 0,
         active := true }] =
      .ok [{ id := "C", label := "L", url := "https://c.com",
             visualType := "none", imageUrl := "", iconId := "", iconUrl := "",
             order := 0, active := true },
           { id := "A", label := "L", url := "https://a.com",
             visualType := "none", imageUrl := "", iconId := "", iconUrl := "",
             order := 1, active := true },
           { id := "B", label := "L", url := "https://b.com",
             visualType := "none", imageUrl := "", iconId := "", iconUrl := "",
             order := 2, active := true }] ∧
    ¬ (([{ id := "C", label := "L", url := "https://c.com",
           visualType := "none", imageUrl := "", iconId := "", iconUrl := "",
           order := 0, active := true },
         { id := "A", label := "L", url := "https://a.com",
           visualType := "none", imageUrl := "", iconId := "", iconUrl := "",
           order := 1, active := true },
         { id := "B", label := "L", url := "https://b.com",
           visualType := "none", imageUrl := "", iconId := "", iconUrl := "",
           order := 2, active := true }] : List Link).map
        (fun l => (l.id, l.order)) =
      [("C", 0), ("A", 2), ("B", 1)]) :=
  ⟨by rfl, by decide⟩

/-- Witness for the amended C1 at the spec's own scenario: links
`[A(0), B(1), C(2)]`, payload `["C", "A"]`. -/
theorem reorder_sorted_named_then_array_remainder_witness :
    ∃ res, reorderOp ["C", "A"]
        [{ id := "A", label := "L", url := "https://a.com", visualType := "none",
           imageUrl := "", iconId := "", iconUrl := "", order := 0,
           active := true },
         { id := "B", label := "L", url := "https://b.com", visualType := "none",
           imageUrl := "", iconId := "", iconUrl := "", order := 1,
           active := true },
         { id := "C", label := "L", url := "https://c.com", visualType := "none",
           imageUrl := "", iconId := "", iconUrl := "", order := 2,
           active := true }] = .ok res ∧
      res.map (·.id) =
        ([{ id := "A", label := "L", url := "https://a.com",
            visualType := "none", imageUrl := "", iconId := "", iconUrl := "",
            order := 0, active := true },
          { id := "B", label := "L", url := "https://b.com",
            visualType := "none", imageUrl := "", iconId := "", iconUrl := "",
            order := 1, active := true },
          { id := "C", label := "L", url := "https://c.com",
            visualType := "none", imageUrl := "", iconId := "", iconUrl := "",
            order := 2, active := true }] : List Link).map (·.id) ∧
      res.Perm (namedPart ["C", "A"]
          [{ id := "A", label := "L", url := "https://a.com",
             visualType := "none", imageUrl := "", iconId := "", iconUrl := "",
             order := 0, active := true },
           { id := "B", label := "L", url := "https://b.com",
             visualType := "none", imageUrl := "", iconId := "", iconUrl := "",
             order := 1, active := true },
           { id := "C", label := "L", url := "https://c.com",
             visualType := "none", imageUrl := "", iconId := "", iconUrl := "",
             order := 2, active := true }] ++
        unnamedPart ["C", "A"]
          [{ id := "A", label := "L", url := "https://a.com",
             visualType := "none", imageUrl := "", iconId := "", iconUrl := "",
             order := 0, active := true },
           { id := "B", label := "L", url := "https://b.com",
             visualType := "none", imageUrl := "", iconId := "", iconUrl := "",
             order := 1, active := true },
           { id := "C", label := "L", url := "https://c.com",
             visualType := "none", imageUrl := "", iconId := "", iconUrl := "",
             order := 2, active := true }]) ∧
      (∀ i, ∀ hi : i < (namedPart ["C", "A"]
          [{ id := "A", label := "L", url := "https://a.com",
             visualType := "none", imageUrl := "", iconId := "", iconUrl := "",
             order := 0, active := true },
           { id := "B", label := "L", url := "https://b.com",
             visualType := "none", imageUrl := "", iconId := "", iconUrl := "",
             order := 1, active := true },
           { id := "C", label := "L", url := "https://c.com",
             visualType := "none", imageUrl := "", iconId := "", iconUrl := "",
             order := 2, active := true }] ++
        unnamedPart ["C", "A"]
          [{ id := "A", label := "L", url := "https://a.com",
             visualType := "none", imageUrl := "", iconId := "", iconUrl := "",
             order := 0, active := true },
           { id := "B", label := "L", url := "https://b.com",
             visualType := "none", imageUrl := "", iconId := "", iconUrl := "",
             order := 1, active := true },
           { id := "C", label := "L", url := "https://c.com",
             visualType := "none", imageUrl := "", iconId := "", iconUrl := "",
             order := 2, active := true }]).length,
        ((namedPart ["C", "A"]
          [{ id := "A", label := "L", url := "https://a.com",
             visualType := "none", imageUrl := "", iconId := "", iconUrl := "",
             order := 0, active := true },
           { id := "B", label := "L", url := "https://b.com",
             visualType := "none", imageUrl := "", iconId := "", iconUrl := "",
             order := 1, active := true },
           { id := "C", label := "L", url := "https://c.com",
             visualType := "none", imageUrl := "", iconId := "", iconUrl := "",
             order := 2, active := true }] ++
        unnamedPart ["C", "A"]
          [{ id := "A", label := "L", url := "https://a.com",
             visualType := "none", imageUrl := "", iconId := "", iconUrl := "",
             order := 0, active := true },
           { id := "B", label := "L", url := "https://b.com",
             visualType := "none", imageUrl := "", iconId := "", iconUrl := "",
             order := 1, active := true },
           { id := "C", label := "L", url := "https://c.com",
             visualType := "none", imageUrl := "", iconId := "", iconUrl := "",
             order := 2, active := true }]).get ⟨i, hi⟩).order = (i : Int)) :=
  reorder_sorted_named_then_array_remainder ["C", "A"]
    [{ id := "A", label := "L", url := "https://a.com", visualType := "none",
       imageUrl := "", iconId := "", iconUrl := "", order := 0,
       active := true },
     { id := "B", label := "L", url := "https://b.com", visualType := "none",
       imageUrl := "", iconId := "", iconUrl := "", order := 1,
       active := true },
     { id := "C", label := "L", url := "https://c.com", visualType := "none",
       imageUrl := "", iconId := "", iconUrl := "", order := 2,
       active := true }] (by decide) (by decide) (by decide)

/-! ## C5: distinct `order` values at every reachable state -/

theorem createOp_ok_eq (p : CreatePayload) (newId : String) (links : List Link)
    (l : Link) (links' : List Link)
    (hop : createOp p newId links = .ok (l, links')) :
    l = newLinkOf p newId links ∧ links' = links ++ [l] := by
  unfold createOp at hop
  repeat' split at hop
  all_goals try exact Except.noConfusion hop
  simp only [Except.ok.injEq, Prod.mk.injEq] at hop
  obtain ⟨hl, hls⟩ := hop
  subst hl
  subst hls
  exact ⟨rfl, rfl⟩

theorem updateFirst_map_eq (f : Link → Link) (g : Link → α)
    (hg : ∀ l, g (f l) = g l) (id : String) (links : List Link) :
    (updateFirst f id links).map g = links.map g := by
  induction links with
  | nil => rfl
  | cons l ls ih =>
    by_cases hl : l.id = id
    · simp [updateFirst, hl, hg l]
    · simp [updateFirst, hl, ih]

theorem removeFirst_eq (id : String) (links : List Link) (l : Link)
    (rest : List Link) (h : removeFirst id links = some (l, rest)) :
    ∃ pre post, links = pre ++ l :: post ∧ rest = pre ++ post := by
  induction links generalizing rest with
  | nil => simp [removeFirst] at h
  | cons a ls ih =>
    unfold removeFirst at h
    by_cases ha : a.id = id
    · rw [if_pos ha] at h
      simp only [Option.some.injEq, Prod.mk.injEq] at h
      exact ⟨[], ls, by simp [h.1], by simp [h.2]⟩
    · rw [if_neg ha] at h
      cases hrec : removeFirst id ls with
      | none =>
        rw [hrec] at h
        exact Option.noConfusion h
      | some pr =>
        obtain ⟨l', rest'⟩ := pr
        rw [hrec] at h
        simp only [Option.map_some', Option.some.injEq, Prod.mk.injEq] at h
        obtain ⟨hl', hrest'⟩ := h
        obtain ⟨pre, post, hls, hrest⟩ := ih rest' (by rw [hrec, hl'])
        exact ⟨a :: pre, post, by rw [List.cons_append, ← hls],
          by rw [← hrest', hrest, List.cons_append]⟩

theorem reorderOp_ok_res (linkIds : List String) (links : List Link)
    (res : List Link) (hop : reorderOp linkIds links = .ok res) :
    res = assignRemainder linkIds linkIds.length
      (applyNamedOrders linkIds links) := by
  unfold reorderOp at hop
  cases hf : findMissing linkIds links with
  | some id =>
    rw [hf] at hop
    exact Except.noConfusion hop
  | none =>
    rw [hf] at hop
    injection hop with h
    exact h.symm

theorem orderAssignment_order_of_mem (linkIds : List String) (l : Link)
    (j : Nat) (hx : lastIdxOf linkIds l.id = some j) :
    (orderAssignment linkIds l).order = (j : Int) := by
  unfold orderAssignment
  rw [hx]

theorem lastIdxOf_isSome_of_includes (ids : List String) (x : String)
    (h : includes ids x = true) : ∃ j, lastIdxOf ids x = some j := by
  cases hc : lastIdxOf ids x with
  | none =>
    exact absurd ((lastIdxOf_eq_none_iff _ _).mp hc)
      (fun hn => hn ((includes_iff _ _).mp h))
  | some j => exact ⟨j, rfl⟩

theorem reorder_orders_nodup (linkIds : List String) (links : List Link)
    (res : List Link) (hids : (links.map (·.id)).Nodup)
    (hop : reorderOp linkIds links = .ok res) :
    (res.map (·.order)).Nodup := by
  have hres := reorderOp_ok_res linkIds links res hop
  subst hres
  set res := assignRemainder linkIds linkIds.length
    (applyNamedOrders linkIds links) with hresdef
  have hperm : ((res.filter (fun l => includes linkIds l.id) ++
      res.filter (fun l => ! includes linkIds l.id)).map (·.order)).Perm
      (res.map (·.order)) :=
    (List.filter_append_perm (fun l => includes linkIds l.id) res).map (·.order)
  refine hperm.nodup ?_
  rw [List.map_append, hresdef, assignRemainder_filter_named,
    assignRemainder_filter_unnamed, applyNamed_filter_named,
    applyNamed_filter_unnamed, List.map_map]
  have hfilterIds : ((links.filter
      (fun l => includes linkIds l.id)).map (·.id)).Nodup :=
    ((List.filter_sublist links).map (·.id)).nodup hids
  refine List.Nodup.append ?_ (stampOrders_orders_nodup _ _) ?_
  · refine List.Nodup.map_on ?_ (List.Nodup.of_map (·.id) hfilterIds)
    intro x hx y hy heq
    have hxi : includes linkIds x.id = true := (List.mem_filter.mp hx).2
    have hyi : includes linkIds y.id = true := (List.mem_filter.mp hy).2
    obtain ⟨jx, hjx⟩ := lastIdxOf_isSome_of_includes linkIds x.id hxi
    obtain ⟨jy, hjy⟩ := lastIdxOf_isSome_of_includes linkIds y.id hyi
    have hox : ((·.order) ∘ orderAssignment linkIds) x = (jx : Int) := by
      simp only [Function.comp]
      exact orderAssignment_order_of_mem _ _ _ hjx
    have hoy : ((·.order) ∘ orderAssignment linkIds) y = (jy : Int) := by
      simp only [Function.comp]
      exact orderAssignment_order_of_mem _ _ _ hjy
    have hj : jx = jy := by
      rw [hox, hoy] at heq
      exact_mod_cast heq
    have hgx := lastIdxOf_get linkIds x.id jx hjx
    have hgy := lastIdxOf_get linkIds y.id jy hjy
    rw [hj, hgy] at hgx
    injection hgx with hgx
    exact List.inj_on_of_nodup_map hfilterIds hx hy hgx.symm
  · intro a ha hb
    obtain ⟨x, hx, hxa⟩ := List.mem_map.mp ha
    have hxi : includes linkIds x.id = true := (List.mem_filter.mp hx).2
    obtain ⟨jx, hjx⟩ := lastIdxOf_isSome_of_includes linkIds x.id hxi
    have hjlt := lastIdxOf_lt_length linkIds x.id jx hjx
    have hav : a = (jx : Int) := by
      rw [← hxa]
      simp only [Function.comp]
      exact orderAssignment_order_of_mem _ _ _ hjx
    obtain ⟨i, _, hbv⟩ := stampOrders_order_mem _ _ _ hb
    rw [hav] at hbv
    omega

/-- C5 amended: at every state reachable through the admin handlers from the
empty collection, both the link ids and the `order` values are pairwise
distinct.  The `order` values need not be a permutation of `0..N-1`: delete
leaves gaps and later writes do not compact them (see the counterexample). -/
theorem reachable_ids_and_orders_distinct (s : List Link) (h : Reachable s) :
    (s.map (·.id)).Nodup ∧ (s.map (·.order)).Nodup := by
  induction h with
  | init => simp
  | @create s p newId l s' _ hfresh hop ih =>
    obtain ⟨hl, hls⟩ := createOp_ok_eq p newId s l s' hop
    subst hls
    subst hl
    constructor
    · rw [List.map_append]
      refine List.Nodup.append ih.1 (by simp) ?_
      intro x hx hmem
      simp only [List.map_cons, List.map_nil, List.mem_singleton] at hmem
      have hxid : x = newId := hmem
      exact hfresh (hxid ▸ hx)
    · rw [List.map_append]
      refine List.Nodup.append ih.2 (by simp) ?_
      intro o ho hmem
      simp only [List.map_cons, List.map_nil, List.mem_singleton] at hmem
      obtain ⟨l', hl', rfl⟩ := List.mem_map.mp ho
      have hle := le_jsMaxOrder s l' hl'
      have hov : l'.order = jsMaxOrder s + 1 := hmem
      omega
  | @update s p id s' _ hop ih =>
    have hres := updateOp_ok_res p id s s' hop
    subst hres
    constructor
    · rw [updateFirst_map_eq (applyUpdate p) (·.id)
        (fun l => (applyUpdate_fields p l).2.1) id s]
      exact ih.1
    · rw [updateFirst_map_eq (applyUpdate p) (·.order)
        (fun l => (applyUpdate_fields p l).1) id s]
      exact ih.2
  | @delete s id l s' _ hop ih =>
    have hrm : removeFirst id s = some (l, s') := by
      unfold deleteOp at hop
      cases hr : removeFirst id s with
      | none => rw [hr] at hop; exact Except.noConfusion hop
      | some pr =>
        rw [hr] at hop
        injection hop with h
        rw [← h]
    obtain ⟨pre, post, hs, hrest⟩ := removeFirst_eq id s l s' hrm
    have hsub : List.Sublist s' s := by
      rw [hs, hrest]
      exact (List.sublist_cons_self l post).append_left pre
    exact ⟨(hsub.map (·.id)).nodup ih.1, (hsub.map (·.order)).nodup ih.2⟩
  | @reorder s linkIds s' _ hop ih =>
    constructor
    · rw [reorderOp_ok_res linkIds s s' hop, assignRemainder_map_id,
        applyNamed_map_id]
      exact ih.1
    · exact reorder_orders_nodup linkIds s s' ih.1 hop

/-- C5 counterexample: the state reached by create "a", create "b",
delete "a", create "c" — a reachable state produced by a write — holds two
links with orders `1` and `2`, which is not a permutation of `0..1`; delete
left a gap and the following create did not correct it. -/
theorem reachable_orders_not_range :
    Reachable
      [{ id := "b", label := "L", url := "https://x.com", visualType := "none",
         imageUrl := "", iconId := "", iconUrl := "", order := 1,
         active := true },
       { id := "c", label := "L", url := "https://x.com", visualType := "none",
         imageUrl := "", iconId := "", iconUrl := "", order := 2,
         active := true }] ∧
    ¬ (([({ id := "b", label := "L", url := "https://x.com",
            visualType := "none", imageUrl := "", iconId := "", iconUrl := "",
            order := 1, active := true } : Link),
        { id := "c", label := "L", url := "https://x.com",
          visualType := "none", imageUrl := "", iconId := "", iconUrl := "",
          order := 2, active := true }].map (·.order)).Perm
      ((List.range 2).map (fun n => (n : Int)))) := by
  constructor
  · refine @Reachable.create
      [{ id := "b", label := "L", url := "https://x.com", visualType := "none",
         imageUrl := "", iconId := "", iconUrl := "", order := 1,
         active := true }]
      ⟨"L", "https://x.com", "", "", "", ""⟩ "c" _ _ ?_ (by decide) (by rfl)
    refine @Reachable.delete
      [{ id := "a", label := "L", url := "https://x.com", visualType := "none",
         imageUrl := "", iconId := "", iconUrl := "", order := 0,
         active := true },
       { id := "b", label := "L", url := "https://x.com", visualType := "none",
         imageUrl := "", iconId := "", iconUrl := "", order := 1,
         active := true }] "a" _ _ ?_ (by rfl)
    refine @Reachable.create
      [{ id := "a", label := "L", url := "https://x.com", visualType := "none",
         imageUrl := "", iconId := "", iconUrl := "", order := 0,
         active := true }]
      ⟨"L", "https://x.com", "", "", "", ""⟩ "b" _ _ ?_ (by decide) (by rfl)
    exact @Reachable.create [] ⟨"L", "https://x.com", "", "", "", ""⟩ "a" _ _
      Reachable.init (by decide) (by rfl)
  · intro hperm
    have h2 : (2 : Int) ∈
        [({ id := "b", label := "L", url := "https://x.com",
            visualType := "none", imageUrl := "", iconId := "", iconUrl := "",
            order := 1, active := true } : Link),
         { id := "c", label := "L", url := "https://x.com",
           visualType := "none", imageUrl := "", iconId := "", iconUrl := "",
           order := 2, active := true }].map (·.order) := by decide
    exact absurd (hperm.mem_iff.mp h2) (by decide)

/-- Witness for the amended C5: a concrete one-create reachable state has
distinct ids and orders. -/
theorem reachable_ids_and_orders_distinct_witness :
    (([({ id := "a", label := "L", url := "https://x.com",
          visualType := "none", imageUrl := "", iconId := "", iconUrl := "",
          order := 0, active := true } : Link)]).map (·.id)).Nodup ∧
    (([({ id := "a", label := "L", url := "https://x.com",
          visualType := "none", imageUrl := "", iconId := "", iconUrl := "",
          order := 0, active := true } : Link)]).map (·.order)).Nodup :=
  reachable_ids_and_orders_distinct _
    (@Reachable.create [] ⟨"L", "https://x.com", "", "", "", ""⟩ "a" _ _
      Reachable.init (by decide) (by rfl))

end Craftidad
